import Mathlib

/-!
# Traffic controller: caller registry, admission check, reconciliation tick

A shallow embedding of `trafficcontroller.go`.

* Go `int64` (and `int`, 64 bits wide) values are integers in `[-2^63, 2^63)`; arithmetic
  that can leave the range is wrapped by `wrap64` (two's complement).
* The Go map `map[string]*TrafficCounter` is an association list; `mapGet` reads a key and
  `mapSet` writes one (replacing the entry in place when the key is present).  A Go map holds
  each key once: `KeysNodup`.
* The shared store is an oracle giving, for one tick, the answer of each `IncrBy` and
  `Expire` call.
* The locks and the atomics only order concurrent accesses; the embedding is the sequential
  semantics of each operation.
-/

namespace TrafficController

/-! ## Machine integers -/

/-- Smallest `int64`. -/
def MinInt64 : Int := -9223372036854775808

/-- Largest `int64`. -/
def MaxInt64 : Int := 9223372036854775807

/-- Two's-complement reduction of an exact integer result to `int64`. -/
def wrap64 (x : Int) : Int := (x + 9223372036854775808) % 18446744073709551616 - 9223372036854775808

/-- Representable as an `int64`. -/
def IsInt64 (x : Int) : Prop := MinInt64 ≤ x ∧ x ≤ MaxInt64

instance (x : Int) : Decidable (IsInt64 x) := by
  unfold IsInt64; infer_instance

/-! ## The `float64` round trip of `int64(float64(aqps) * 1.5)`

Every `float64` met here is a multiple of one half between `-2^65` and `2^65`, far from the
subnormal and overflow ranges, so an IEEE-754 operation is the exact result rounded to 53
significant bits, ties to even. -/

/-- Number of low-order bits of `m` beyond a 53-bit significand (`fuel` bounds the search). -/
def excessBits : Nat → Nat → Nat
  | 0, _ => 0
  | fuel + 1, m => if m < 2 ^ 53 then 0 else excessBits fuel (m / 2) + 1

/-- Round a magnitude to 53 significant bits, ties to even (binary64 round-to-nearest-even). -/
def roundSig53 (m : Nat) : Nat :=
  let s := excessBits m m
  let q := m / 2 ^ s
  let r := m % 2 ^ s
  if 2 ^ s < 2 * r ∨ (2 * r = 2 ^ s ∧ q % 2 = 1) then (q + 1) * 2 ^ s else q * 2 ^ s

/-- The conversion `float64(n)` of an `int64`: the value of the resulting double (an integer). -/
def float64OfInt64 (n : Int) : Int := Int.sign n * (roundSig53 n.natAbs : Int)

/-- The product `f * 1.5` of an integer-valued double `f`, in units of one half: the exact
product is `3 * f` halves, and it is rounded to a double. -/
def mulOneAndHalf (f : Int) : Int := Int.sign f * (roundSig53 (3 * f.natAbs) : Int)

/-- The conversion `int64(x)` of a double given in halves: truncation toward zero.  Outside the
`int64` range Go leaves the result to the implementation; amd64 yields `MinInt64`. -/
def int64OfHalves (h : Int) : Int :=
  let t := Int.tdiv h 2
  if MinInt64 ≤ t ∧ t ≤ MaxInt64 then t else MinInt64

/-! ## Data model -/

/-- Per-caller counter (`CurrentCnt` is the cell behind the Go pointer). -/
structure TrafficCounter where
  AppliedQps : Int
  Bucket : Int
  Toplimit : Int
  LastTotalCnt : Int
  CurrentCnt : Int
  TrafficLimit : Bool
deriving DecidableEq, Repr

end TrafficController

/-- The controller: the registry and the reconciliation period in milliseconds. -/
structure TrafficController where
  TrafficCtrl : List (String × TrafficController.TrafficCounter)
  Period : Int
deriving DecidableEq, Repr

namespace TrafficController

/-- Map read `m[k]`, with the `ok` flag as the option. -/
def mapGet {α : Type} : List (String × α) → String → Option α
  | [], _ => none
  | (k', v) :: rest, k => if k' = k then some v else mapGet rest k

/-- Map write `m[k] = v`. -/
def mapSet {α : Type} : List (String × α) → String → α → List (String × α)
  | [], k, v => [(k, v)]
  | (k', v') :: rest, k, v => if k' = k then (k', v) :: rest else (k', v') :: mapSet rest k v

/-- The keys of a map, in iteration order. -/
def mapKeys {α : Type} (m : List (String × α)) : List String := m.map Prod.fst

/-- A Go map holds every key once. -/
def KeysNodup {α : Type} (m : List (String × α)) : Prop := (mapKeys m).Nodup

instance {α : Type} (m : List (String × α)) : Decidable (KeysNodup m) := by
  unfold KeysNodup; infer_instance

/-- The case table of Go's `unicode` package, `To(UpperCase, r)`, which `unicode.ToUpper`
consults for the runes above ASCII.  The table is part of Go's library, not of this
repository, so it is a parameter of the embedding: every theorem with `[RuneTable]` holds for
every table. -/
class RuneTable where
  upper : Char → Char

/-- The table that leaves every rune as it is.  The concrete evaluations of this file use it,
on identities whose service is ASCII, for which no table is consulted. -/
instance identityRuneTable : RuneTable := ⟨fun c => c⟩

/-- Go `unicode.ToUpper` on one rune: an ASCII rune is upper-cased by arithmetic on `a`..`z`,
any other rune through the case table. -/
def upperRune [RuneTable] (c : Char) : Char :=
  if c.toNat < 128 then Char.toUpper c else RuneTable.upper c

/-- Go `strings.ToUpper`: `unicode.ToUpper` rune by rune (a Lean string is a sequence of
runes; Go strings that are not valid UTF-8 are outside the embedding). -/
def ToUpper [RuneTable] (s : String) : String := String.mk (s.data.map upperRune)

/-- Registry key of an identity. -/
def GenerateKey [RuneTable] (service productid acckey : String) : String :=
  ToUpper service ++ "_" ++ productid ++ "_" ++ acckey

/-! ## Registration -/

/-- Register a caller; the second component is the returned error (`none` is `nil`). -/
def RegisterCaller [RuneTable] (trafficCtrl : TrafficController) (service productid acckey : String)
    (appliedqps bucket : Int) : TrafficController × Option String :=
  if service = "" ∨ productid = "" ∨ acckey = "" ∨ appliedqps < 0 ∨ bucket < 0 then
    (trafficCtrl, some "there is input error")
  else
    let aqps := Int.tdiv (wrap64 (appliedqps * trafficCtrl.Period)) 1000
    let aqps := if appliedqps > 0 then (if aqps < 1 then 1 else aqps) else 0
    let bt := Int.tdiv (wrap64 (bucket * trafficCtrl.Period)) 1000
    let bt := if bucket > 0 then (if bt < 1 then 1 else bt) else 0
    let key := GenerateKey service productid acckey
    let fc : TrafficCounter :=
      { AppliedQps := aqps
        Bucket := bt
        Toplimit := int64OfHalves (mulOneAndHalf (float64OfInt64 aqps))
        LastTotalCnt := 0
        CurrentCnt := 0
        TrafficLimit := false }
    ({ trafficCtrl with TrafficCtrl := mapSet trafficCtrl.TrafficCtrl key fc }, none)

/-- The counter a successful `RegisterCaller` stores, as a function of its numeric inputs and
the period. -/
def freshCounter (appliedqps bucket Period : Int) : TrafficCounter :=
  let aqps := Int.tdiv (wrap64 (appliedqps * Period)) 1000
  let aqps := if appliedqps > 0 then (if aqps < 1 then 1 else aqps) else 0
  let bt := Int.tdiv (wrap64 (bucket * Period)) 1000
  let bt := if bucket > 0 then (if bt < 1 then 1 else bt) else 0
  { AppliedQps := aqps
    Bucket := bt
    Toplimit := int64OfHalves (mulOneAndHalf (float64OfInt64 aqps))
    LastTotalCnt := 0
    CurrentCnt := 0
    TrafficLimit := false }

/-! ## Admission check -/

/-- Count one request for `key`; an error when the key is unknown. -/
def AddCount (trafficCtrl : TrafficController) (key : String) :
    TrafficController × Option String :=
  match mapGet trafficCtrl.TrafficCtrl key with
  | some ctrl =>
    ({ trafficCtrl with
        TrafficCtrl := mapSet trafficCtrl.TrafficCtrl key
          { ctrl with CurrentCnt := wrap64 (ctrl.CurrentCnt + 1) } }, none)
  | none => (trafficCtrl, some ("No value found for key " ++ key))

/-- Admission check: the returned pair `(limitFlag, ctrlCode)` and the controller afterwards. -/
def IsTrafficCtrl [RuneTable] (trafficCtrl : TrafficController) (service productid acckey : String) :
    (Bool × Int) × TrafficController :=
  let key := GenerateKey service productid acckey
  match mapGet trafficCtrl.TrafficCtrl key with
  | some ctrl =>
    if (ctrl.TrafficLimit = true ∧ ctrl.CurrentCnt > ctrl.Bucket) ∨ ctrl.CurrentCnt > ctrl.Toplimit
    then ((true, 1), (AddCount trafficCtrl key).1)
    else ((false, 0), (AddCount trafficCtrl key).1)
  | none => ((true, 2), trafficCtrl)

/-- Run `n` admission checks in a row for one identity, with no tick in between; the verdicts
are listed in call order. -/
def IsTrafficCtrlRepeat [RuneTable] : Nat → TrafficController → String → String → String →
    List (Bool × Int) × TrafficController
  | 0, trafficCtrl, _, _, _ => ([], trafficCtrl)
  | n + 1, trafficCtrl, service, productid, acckey =>
    let r := IsTrafficCtrl trafficCtrl service productid acckey
    let rs := IsTrafficCtrlRepeat n r.2 service productid acckey
    (r.1 :: rs.1, rs.2)

/-! ## Reconciliation tick -/

/-- The shared counter store as seen by one tick: the answer of `IncrBy key delta` (`none` is
an error) and whether `Expire key ttl` returns an error. -/
structure Store where
  IncrBy : String → Int → Option Int
  Expire : String → Int → Bool

/-- Time to live of a store key, in seconds. -/
def EXPIRETIME : Int := 3600 * 48

/-- Store key of a caller for the current day and hour. -/
def rediskey (k : String) (day hour : Nat) : String :=
  "POI_" ++ k ++ "_" ++ toString day ++ "_" ++ toString hour

/-- The loop of `writeCount` over the registry entries: each tally is read and zeroed, sent to
the store, and the answer recorded in `respone` unless the store failed.  The result of
`Expire` is dropped, as in the source.  Returns the entries after the loop and `respone`. -/
def writeCountLoop (Redis : Store) (day hour : Nat) (expire : Int) :
    List (String × TrafficCounter) → List (String × Int) →
    List (String × TrafficCounter) × List (String × Int)
  | [], respone => ([], respone)
  | (k, v) :: rest, respone =>
    let count := v.CurrentCnt
    let v := { v with CurrentCnt := 0 }
    match Redis.IncrBy (rediskey k day hour) count with
    | none =>
      let r := writeCountLoop Redis day hour expire rest respone
      ((k, v) :: r.1, r.2)
    | some resp =>
      let _expired := Redis.Expire (rediskey k day hour) expire
      let r := writeCountLoop Redis day hour expire rest (mapSet respone k resp)
      ((k, v) :: r.1, r.2)

/-- First loop of `setTrafficLimit`, over the entries `rs` of `resp`: the decision of every
answered caller goes to `limit` and its `LastTotalCnt` is overwritten. -/
def setTrafficLimitDecide (resp : List (String × Int)) :
    List (String × Int) → List (String × TrafficCounter) → List (String × Bool) →
    List (String × TrafficCounter) × List (String × Bool)
  | [], reg, limit => (reg, limit)
  | (k, v) :: rest, reg, limit =>
    match mapGet reg k with
    | some ctrl =>
      let increment := wrap64 ((mapGet resp k).getD 0 - ctrl.LastTotalCnt)
      let limit := mapSet limit k (decide (increment > ctrl.AppliedQps))
      let reg := mapSet reg k { ctrl with LastTotalCnt := v }
      setTrafficLimitDecide resp rest reg limit
    | none => setTrafficLimitDecide resp rest reg limit

/-- Second loop of `setTrafficLimit`: the decisions are written to the registry.  A decision
for a key absent from the registry dereferences a nil pointer: `none`. -/
def setTrafficLimitCommit :
    List (String × Bool) → List (String × TrafficCounter) → Option (List (String × TrafficCounter))
  | [], reg => some reg
  | (k, v) :: rest, reg =>
    match mapGet reg k with
    | some ctrl => setTrafficLimitCommit rest (mapSet reg k { ctrl with TrafficLimit := v })
    | none => none

/-- Recompute the throttle flags from the store answers `resp`; `none` is a panic. -/
def setTrafficLimit (trafficCtrl : TrafficController) (resp : List (String × Int)) :
    Option TrafficController :=
  let r := setTrafficLimitDecide resp resp trafficCtrl.TrafficCtrl []
  (setTrafficLimitCommit r.2 r.1).map (fun reg => { trafficCtrl with TrafficCtrl := reg })

/-- One reconciliation tick at the given day and hour; `none` is a panic.  `DEBUG` is `false`,
so the time to live is `EXPIRETIME`. -/
def writeCount (trafficCtrl : TrafficController) (Redis : Store) (day hour : Nat) :
    Option TrafficController :=
  let r := writeCountLoop Redis day hour EXPIRETIME trafficCtrl.TrafficCtrl []
  setTrafficLimit { trafficCtrl with TrafficCtrl := r.1 } r.2

/-- What one tick does to the counter `c` registered under `k`. -/
def tickCounter (Redis : Store) (day hour : Nat) (k : String) (c : TrafficCounter) :
    TrafficCounter :=
  match Redis.IncrBy (rediskey k day hour) c.CurrentCnt with
  | none => { c with CurrentCnt := 0 }
  | some total =>
    { c with
      CurrentCnt := 0
      LastTotalCnt := total
      TrafficLimit := decide (wrap64 (total - c.LastTotalCnt) > c.AppliedQps) }

/-- States reachable from an empty registry by registrations, admission checks and ticks.  The
numeric inputs and the store answers range over all integers, which covers every `int` and
`int64`. -/
inductive Reachable [RuneTable] : TrafficController → Prop
  | empty (Period : Int) : Reachable ⟨[], Period⟩
  | register (tc : TrafficController) (service productid acckey : String)
      (appliedqps bucket : Int) :
      Reachable tc → Reachable (RegisterCaller tc service productid acckey appliedqps bucket).1
  | check (tc : TrafficController) (service productid acckey : String) :
      Reachable tc → Reachable (IsTrafficCtrl tc service productid acckey).2
  | tick (tc tc' : TrafficController) (Redis : Store) (day hour : Nat) :
      Reachable tc → writeCount tc Redis day hour = some tc' → Reachable tc'

/-! ## The rules as the specification words them -/

/-- Period scaling as specified: `qps * periodMs / 1000`, raised to 1 when the input is
positive, and 0 for a zero input. -/
def scaledQuotaSpec (qps periodMs : Int) : Int :=
  if qps = 0 then 0 else max 1 (qps * periodMs / 1000)

/-- Burst ceiling as specified: `floor (appliedQuota * 1.5)` in exact arithmetic. -/
def burstCeilingSpec (appliedQuota : Int) : Int := 3 * appliedQuota / 2

/-- The verdict of an admission check on a registered caller whose tally reads `cnt`. -/
def verdict (c : TrafficCounter) (cnt : Int) : Bool × Int :=
  if (c.TrafficLimit = true ∧ cnt > c.Bucket) ∨ cnt > c.Toplimit then (true, 1) else (false, 0)

/-- The ceiling bounds the quota in every entry of a registry. -/
def CeilingAboveQuota (reg : List (String × TrafficCounter)) : Prop :=
  ∀ p ∈ reg, p.2.AppliedQps ≤ p.2.Toplimit

/-- Run the admission checks of the identities `ids` one after the other, with no tick in
between; the controller afterwards. -/
def IsTrafficCtrlSeq [RuneTable] : List (String × String × String) → TrafficController → TrafficController
  | [], trafficCtrl => trafficCtrl
  | (service, productid, acckey) :: rest, trafficCtrl =>
    IsTrafficCtrlSeq rest (IsTrafficCtrl trafficCtrl service productid acckey).2

/-- Number of the checks `ids` that reach the caller registered under `key`. -/
def reachingCalls [RuneTable] (key : String) (ids : List (String × String × String)) : Nat :=
  (ids.filter (fun id => decide (GenerateKey id.1 id.2.1 id.2.2 = key))).length

/-- The `IncrBy` calls that the loop of `writeCount` makes over the registry entries, in order:
the store key and the delta, which is the tally read before it is zeroed. -/
def writeCountCalls (day hour : Nat) : List (String × TrafficCounter) → List (String × Int)
  | [] => []
  | (k, v) :: rest => (rediskey k day hour, v.CurrentCnt) :: writeCountCalls day hour rest

/-- Two runes that differ at most in letter case: they are equal, or one is the upper-case
form of the other. -/
def CaseVariant [RuneTable] (c d : Char) : Prop := c = d ∨ d = upperRune c ∨ c = upperRune d

instance [RuneTable] (c d : Char) : Decidable (CaseVariant c d) := by
  unfold CaseVariant; infer_instance

/-- Two rune sequences of one length that differ at most in letter case, rune by rune. -/
def SameUpToCaseRunes [RuneTable] : List Char → List Char → Bool
  | [], [] => true
  | c :: cs, d :: ds => decide (CaseVariant c d) && SameUpToCaseRunes cs ds
  | _, _ => false

/-- Two service names that differ only in letter case. -/
def SameUpToCase [RuneTable] (s t : String) : Prop := SameUpToCaseRunes s.data t.data = true

instance [RuneTable] (s t : String) : Decidable (SameUpToCase s t) := by
  unfold SameUpToCase; infer_instance

/-! ## Association-list maps -/

theorem mapGet_mapSet_self {α : Type} (m : List (String × α)) (k : String) (v : α) :
    mapGet (mapSet m k v) k = some v := by
  induction m with
  | nil => simp [mapSet, mapGet]
  | cons p rest ih =>
    obtain ⟨k', v'⟩ := p
    by_cases h : k' = k
    · simp [mapSet, mapGet, h]
    · simp [mapSet, mapGet, h, ih]

theorem mapGet_mapSet_ne {α : Type} (m : List (String × α)) (k k' : String) (v : α)
    (hne : k' ≠ k) : mapGet (mapSet m k v) k' = mapGet m k' := by
  induction m with
  | nil => simp [mapSet, mapGet, Ne.symm hne]
  | cons p rest ih =>
    obtain ⟨k0, v0⟩ := p
    by_cases h : k0 = k
    · subst h
      simp [mapSet, mapGet, Ne.symm hne]
    · by_cases h' : k0 = k'
      · subst h'
        simp [mapSet, mapGet, h]
      · simp [mapSet, mapGet, h, h', ih]

theorem mapGet_mapSet {α : Type} (m : List (String × α)) (k k' : String) (v : α) :
    mapGet (mapSet m k v) k' = if k' = k then some v else mapGet m k' := by
  by_cases h : k' = k
  · subst h; simp [mapGet_mapSet_self]
  · simp [h, mapGet_mapSet_ne m k k' v h]

theorem mapGet_eq_none_iff {α : Type} (m : List (String × α)) (k : String) :
    mapGet m k = none ↔ k ∉ mapKeys m := by
  induction m with
  | nil => simp [mapGet, mapKeys]
  | cons p rest ih =>
    obtain ⟨k0, v0⟩ := p
    by_cases h : k0 = k
    · simp [mapGet, mapKeys, h]
    · have ih' : mapGet rest k = none ↔ k ∉ List.map Prod.fst rest := ih
      simp [mapGet, mapKeys, h, ih', Ne.symm h]

theorem mapGet_isSome_iff {α : Type} (m : List (String × α)) (k : String) :
    (mapGet m k).isSome = true ↔ k ∈ mapKeys m := by
  have h := mapGet_eq_none_iff m k
  cases hg : mapGet m k with
  | none => simp [hg] at h; simpa using h
  | some v => simp [hg] at h; simpa using h

theorem mapKeys_mapSet_of_get {α : Type} (m : List (String × α)) (k : String) (c v : α)
    (hget : mapGet m k = some c) : mapKeys (mapSet m k v) = mapKeys m := by
  induction m with
  | nil => simp [mapGet] at hget
  | cons p rest ih =>
    obtain ⟨k0, v0⟩ := p
    by_cases h : k0 = k
    · simp [mapSet, mapKeys, h]
    · simp only [mapGet, h, if_false] at hget
      have ih' : List.map Prod.fst (mapSet rest k v) = List.map Prod.fst rest := ih hget
      simp [mapSet, mapKeys, h, ih']

theorem mapKeys_mapSet_of_none {α : Type} (m : List (String × α)) (k : String) (v : α)
    (hget : mapGet m k = none) : mapKeys (mapSet m k v) = mapKeys m ++ [k] := by
  induction m with
  | nil => simp [mapSet, mapKeys]
  | cons p rest ih =>
    obtain ⟨k0, v0⟩ := p
    by_cases h : k0 = k
    · simp [mapGet, h] at hget
    · simp only [mapGet, h, if_false] at hget
      have ih' : List.map Prod.fst (mapSet rest k v) = List.map Prod.fst rest ++ [k] := ih hget
      simp [mapSet, mapKeys, h, ih']

theorem KeysNodup_mapSet {α : Type} (m : List (String × α)) (k : String) (v : α)
    (hm : KeysNodup m) : KeysNodup (mapSet m k v) := by
  unfold KeysNodup at *
  cases hg : mapGet m k with
  | some c => rw [mapKeys_mapSet_of_get m k c v hg]; exact hm
  | none =>
    rw [mapKeys_mapSet_of_none m k v hg]
    have hk : k ∉ mapKeys m := (mapGet_eq_none_iff m k).1 hg
    exact List.Nodup.append hm (List.nodup_singleton k) (by simpa using hk)

theorem mem_mapSet {α : Type} (m : List (String × α)) (k : String) (v : α) (p : String × α)
    (hp : p ∈ mapSet m k v) : p ∈ m ∨ p = (k, v) := by
  induction m with
  | nil => simp [mapSet] at hp; exact Or.inr hp
  | cons q rest ih =>
    obtain ⟨k0, v0⟩ := q
    by_cases h : k0 = k
    · simp only [mapSet, h, if_true, List.mem_cons] at hp
      rcases hp with hp | hp
      · exact Or.inr hp
      · exact Or.inl (List.mem_cons_of_mem _ hp)
    · simp only [mapSet, h, if_false, List.mem_cons] at hp
      rcases hp with hp | hp
      · exact Or.inl (by simp [hp])
      · rcases ih hp with h1 | h1
        · exact Or.inl (List.mem_cons_of_mem _ h1)
        · exact Or.inr h1

theorem mem_of_mapGet {α : Type} (m : List (String × α)) (k : String) (v : α)
    (hget : mapGet m k = some v) : (k, v) ∈ m := by
  induction m with
  | nil => simp [mapGet] at hget
  | cons q rest ih =>
    obtain ⟨k0, v0⟩ := q
    by_cases h : k0 = k
    · simp [mapGet, h] at hget
      simp [h, hget]
    · simp only [mapGet, h, if_false] at hget
      exact List.mem_cons_of_mem _ (ih hget)

theorem mapGet_of_mem {α : Type} (m : List (String × α)) (k : String) (v : α)
    (hm : KeysNodup m) (hmem : (k, v) ∈ m) : mapGet m k = some v := by
  induction m with
  | nil => simp at hmem
  | cons q rest ih =>
    obtain ⟨k0, v0⟩ := q
    have hnd : k0 ∉ mapKeys rest ∧ KeysNodup rest := by
      simpa [KeysNodup, mapKeys] using hm
    rcases List.mem_cons.1 hmem with heq | hin
    · cases heq
      simp [mapGet]
    · have hk : k ∈ mapKeys rest := List.mem_map.2 ⟨(k, v), hin, rfl⟩
      have hne : k0 ≠ k := fun e => hnd.1 (e ▸ hk)
      simp only [mapGet, hne, if_false]
      exact ih hnd.2 hin

theorem mapGet_map {α : Type} (m : List (String × α)) (g : String → α → α) (k : String) :
    mapGet (m.map (fun p => (p.1, g p.1 p.2))) k = (mapGet m k).map (g k) := by
  induction m with
  | nil => simp [mapGet]
  | cons q rest ih =>
    obtain ⟨k0, v0⟩ := q
    by_cases h : k0 = k
    · subst h; simp [mapGet]
    · simp [mapGet, h, ih]

/-! ## Machine arithmetic -/

theorem wrap64_of_IsInt64 (x : Int) (h : IsInt64 x) : wrap64 x = x := by
  unfold IsInt64 MinInt64 MaxInt64 at h
  unfold wrap64
  omega

theorem wrap64_IsInt64 (x : Int) : IsInt64 (wrap64 x) := by
  unfold IsInt64 MinInt64 MaxInt64 wrap64
  omega

/-! ## Admission check -/

theorem AddCount_of_get (tc : TrafficController) (key : String) (c : TrafficCounter)
    (hget : mapGet tc.TrafficCtrl key = some c) :
    (AddCount tc key).1 =
      ⟨mapSet tc.TrafficCtrl key { c with CurrentCnt := wrap64 (c.CurrentCnt + 1) },
        tc.Period⟩ := by
  simp [AddCount, hget]

theorem IsTrafficCtrl_of_get [RuneTable] (tc : TrafficController) (service productid acckey : String)
    (c : TrafficCounter)
    (hget : mapGet tc.TrafficCtrl (GenerateKey service productid acckey) = some c) :
    IsTrafficCtrl tc service productid acckey =
      (verdict c c.CurrentCnt,
        ⟨mapSet tc.TrafficCtrl (GenerateKey service productid acckey)
          { c with CurrentCnt := wrap64 (c.CurrentCnt + 1) }, tc.Period⟩) := by
  unfold IsTrafficCtrl verdict
  simp only [hget, AddCount_of_get tc _ c hget]
  split <;> rfl

theorem verdict_congr (c c' : TrafficCounter) (x : Int) (h1 : c'.TrafficLimit = c.TrafficLimit)
    (h2 : c'.Bucket = c.Bucket) (h3 : c'.Toplimit = c.Toplimit) : verdict c' x = verdict c x := by
  simp [verdict, h1, h2, h3]

theorem IsTrafficCtrlRepeat_verdicts [RuneTable] (service productid acckey : String) (n : Nat) :
    ∀ (tc : TrafficController) (c : TrafficCounter),
      mapGet tc.TrafficCtrl (GenerateKey service productid acckey) = some c →
      MinInt64 ≤ c.CurrentCnt → c.CurrentCnt + n ≤ MaxInt64 →
      (IsTrafficCtrlRepeat n tc service productid acckey).1 =
        (List.range n).map (fun (i : Nat) => verdict c (c.CurrentCnt + (i : Int))) := by
  induction n with
  | zero => intro tc c _ _ _; simp [IsTrafficCtrlRepeat]
  | succ n ih =>
    intro tc c hget hlo hhi
    have hw : wrap64 (c.CurrentCnt + 1) = c.CurrentCnt + 1 := by
      apply wrap64_of_IsInt64
      unfold IsInt64
      unfold MinInt64 at *
      unfold MaxInt64 at *
      omega
    have hstep := IsTrafficCtrl_of_get tc service productid acckey c hget
    rw [hw] at hstep
    have hget' : mapGet
        (⟨mapSet tc.TrafficCtrl (GenerateKey service productid acckey)
          { c with CurrentCnt := c.CurrentCnt + 1 }, tc.Period⟩ : TrafficController).TrafficCtrl
        (GenerateKey service productid acckey) = some { c with CurrentCnt := c.CurrentCnt + 1 } :=
      mapGet_mapSet_self _ _ _
    have hrec := ih _ _ hget' (by simp only; unfold MinInt64 at *; omega)
      (by simp only; push_cast at hhi; omega)
    simp only [IsTrafficCtrlRepeat, hstep, hrec, List.range_succ_eq_map, List.map_cons,
      List.map_map]
    refine congrArg₂ List.cons (by simp) ?_
    apply List.map_congr_left
    intro i _
    have e : c.CurrentCnt + 1 + (i : Int) = c.CurrentCnt + ((i + 1 : Nat) : Int) := by
      push_cast; ring
    simp only [Function.comp, Nat.succ_eq_add_one, verdict, e]

/-- C1: on a registered caller the admission check returns `(true, 1)` exactly when, on the
values read before the increment, the throttle flag is set and the tally exceeds `Bucket`, or
the tally exceeds `Toplimit`; otherwise it returns `(false, 0)`.  The ceiling applies with the
flag cleared too. -/
theorem IsTrafficCtrl_registered_verdict [RuneTable] (tc : TrafficController)
    (service productid acckey : String) (c : TrafficCounter)
    (hreg : mapGet tc.TrafficCtrl (GenerateKey service productid acckey) = some c) :
    ((IsTrafficCtrl tc service productid acckey).1 = (true, 1) ↔
        ((c.TrafficLimit = true ∧ c.CurrentCnt > c.Bucket) ∨ c.CurrentCnt > c.Toplimit)) ∧
    (¬ ((c.TrafficLimit = true ∧ c.CurrentCnt > c.Bucket) ∨ c.CurrentCnt > c.Toplimit) →
        (IsTrafficCtrl tc service productid acckey).1 = (false, 0)) ∧
    (c.TrafficLimit = false → c.CurrentCnt > c.Toplimit →
        (IsTrafficCtrl tc service productid acckey).1 = (true, 1)) := by
  rw [IsTrafficCtrl_of_get tc service productid acckey c hreg]
  simp only [verdict]
  refine ⟨?_, ?_, ?_⟩
  · by_cases h : (c.TrafficLimit = true ∧ c.CurrentCnt > c.Bucket) ∨ c.CurrentCnt > c.Toplimit
    · simp [h]
    · simp [h]
  · intro h; simp [h]
  · intro _ h; simp [h]

/-- Witness of C1: a caller with the flag cleared and tally 16 above its ceiling 15. -/
theorem IsTrafficCtrl_registered_verdict_witness :
    mapGet (⟨[("A_p_k", ⟨10, 5, 15, 0, 16, false⟩)], 1000⟩ : TrafficController).TrafficCtrl
        (GenerateKey "a" "p" "k") = some ⟨10, 5, 15, 0, 16, false⟩ ∧
    (IsTrafficCtrl ⟨[("A_p_k", ⟨10, 5, 15, 0, 16, false⟩)], 1000⟩ "a" "p" "k").1 = (true, 1) :=
  ⟨by decide,
   (IsTrafficCtrl_registered_verdict ⟨[("A_p_k", ⟨10, 5, 15, 0, 16, false⟩)], 1000⟩ "a" "p" "k"
      ⟨10, 5, 15, 0, 16, false⟩ (by decide)).2.2 (by decide) (by decide)⟩

/-- C3: for an identity whose key is not registered the admission check returns `(true, 2)`
and hands back the controller as it was: no entry is created and no counter changes. -/
theorem IsTrafficCtrl_unregistered [RuneTable] (tc : TrafficController) (service productid acckey : String)
    (hunreg : mapGet tc.TrafficCtrl (GenerateKey service productid acckey) = none) :
    IsTrafficCtrl tc service productid acckey = ((true, 2), tc) := by
  simp [IsTrafficCtrl, hunreg]

/-- Witness of C3: an unknown product id against a registry of one caller. -/
theorem IsTrafficCtrl_unregistered_witness :
    mapGet (⟨[("A_p_k", ⟨10, 5, 15, 0, 3, true⟩)], 1000⟩ : TrafficController).TrafficCtrl
        (GenerateKey "a" "q" "k") = none ∧
    IsTrafficCtrl ⟨[("A_p_k", ⟨10, 5, 15, 0, 3, true⟩)], 1000⟩ "a" "q" "k" =
      ((true, 2), ⟨[("A_p_k", ⟨10, 5, 15, 0, 3, true⟩)], 1000⟩) :=
  ⟨by decide,
   IsTrafficCtrl_unregistered ⟨[("A_p_k", ⟨10, 5, 15, 0, 3, true⟩)], 1000⟩ "a" "q" "k"
     (by decide)⟩

/-- C4: registration returns an error exactly when an identity field is empty or a numeric
input is negative; with an error the controller is untouched, and without one the normalized
key is in the registry. -/
theorem RegisterCaller_error_iff [RuneTable] (tc : TrafficController) (service productid acckey : String)
    (appliedqps bucket : Int) :
    ((RegisterCaller tc service productid acckey appliedqps bucket).2 ≠ none ↔
        (service = "" ∨ productid = "" ∨ acckey = "" ∨ appliedqps < 0 ∨ bucket < 0)) ∧
    ((RegisterCaller tc service productid acckey appliedqps bucket).2 ≠ none →
        (RegisterCaller tc service productid acckey appliedqps bucket).1 = tc) ∧
    ((RegisterCaller tc service productid acckey appliedqps bucket).2 = none →
        (mapGet (RegisterCaller tc service productid acckey appliedqps bucket).1.TrafficCtrl
          (GenerateKey service productid acckey)).isSome = true) := by
  by_cases h : service = "" ∨ productid = "" ∨ acckey = "" ∨ appliedqps < 0 ∨ bucket < 0
  · simp [RegisterCaller, h]
  · simp [RegisterCaller, h, mapGet_mapSet_self]

/-! ## Registration arithmetic -/

theorem tdiv_thousand_of_nonneg (x : Int) (hx : 0 ≤ x) : Int.tdiv x 1000 = x / 1000 :=
  Int.tdiv_eq_ediv hx (by decide)

theorem tdiv_thousand_of_neg (x : Int) (hx : x < 0) : Int.tdiv x 1000 ≤ 0 := by
  have h1 : 0 ≤ Int.tdiv (-x) 1000 := Int.tdiv_nonneg (by omega) (by decide)
  have h2 : Int.tdiv (- -x) 1000 = -(Int.tdiv (-x) 1000) := Int.neg_tdiv (-x) 1000
  rw [neg_neg] at h2
  omega

/-- The clamp of `RegisterCaller` agrees with the specified scaling when the product fits. -/
theorem scaled_eq_spec (qps P : Int) (hq : 0 ≤ qps) (hfit : IsInt64 (qps * P)) :
    (if qps > 0 then
        (if Int.tdiv (wrap64 (qps * P)) 1000 < 1 then 1 else Int.tdiv (wrap64 (qps * P)) 1000)
      else 0) = scaledQuotaSpec qps P := by
  rw [wrap64_of_IsInt64 _ hfit]
  unfold scaledQuotaSpec
  by_cases h0 : qps = 0
  · simp [h0]
  · have hpos : qps > 0 := by omega
    simp only [hpos, if_true, h0, if_false]
    by_cases hx : 0 ≤ qps * P
    · rw [tdiv_thousand_of_nonneg _ hx]
      by_cases h1 : qps * P / 1000 < 1
      · simp only [h1, if_true]; omega
      · simp only [h1, if_false]; omega
    · have hneg := tdiv_thousand_of_neg (qps * P) (by omega)
      have h1 : Int.tdiv (qps * P) 1000 < 1 := by omega
      simp only [h1, if_true]
      omega

/-- The stored quota lies between 0 and `MaxInt64 / 1000`, whatever the inputs. -/
theorem scaled_bounds (qps x : Int) :
    0 ≤ (if qps > 0 then
        (if Int.tdiv (wrap64 x) 1000 < 1 then 1 else Int.tdiv (wrap64 x) 1000)
      else 0) ∧
    (if qps > 0 then
        (if Int.tdiv (wrap64 x) 1000 < 1 then 1 else Int.tdiv (wrap64 x) 1000)
      else 0) ≤ 9223372036854775 := by
  have hw := wrap64_IsInt64 x
  unfold IsInt64 MinInt64 MaxInt64 at hw
  by_cases hq : qps > 0
  · simp only [hq, if_true]
    by_cases h1 : Int.tdiv (wrap64 x) 1000 < 1
    · simp only [h1, if_true]; omega
    · simp only [h1, if_false]
      have hx : 0 ≤ wrap64 x := by
        by_contra hc
        have := tdiv_thousand_of_neg (wrap64 x) (by omega)
        omega
      rw [tdiv_thousand_of_nonneg _ hx]
      rw [tdiv_thousand_of_nonneg _ hx] at h1
      omega
  · simp only [hq, if_false]; omega

/-! ## The 53-bit rounding -/

theorem excessBits_spec (fuel : Nat) : ∀ m : Nat,
    excessBits fuel m = 0 ∨ 2 ^ excessBits fuel m * 4503599627370496 ≤ m := by
  induction fuel with
  | zero => intro m; simp [excessBits]
  | succ fuel ih =>
    intro m
    unfold excessBits
    by_cases h : m < 2 ^ 53
    · left; simp only [h, if_true]
    · simp only [h, if_false]
      right
      have h53 : (2 : Nat) ^ 53 = 9007199254740992 := by norm_num
      rw [h53] at h
      rw [pow_succ]
      rcases ih (m / 2) with h0 | h1
      · rw [h0]; omega
      · omega

theorem excessBits_of_lt (fuel m : Nat) (h : m < 9007199254740992) : excessBits fuel m = 0 := by
  cases fuel with
  | zero => rfl
  | succ fuel =>
    have h53 : (2 : Nat) ^ 53 = 9007199254740992 := by norm_num
    simp [excessBits, h53, h]

theorem roundSig53_of_lt (m : Nat) (h : m < 9007199254740992) : roundSig53 m = m := by
  simp [roundSig53, excessBits_of_lt m m h, Nat.mod_one]

theorem roundSig53_bounds (m : Nat) :
    m ≤ roundSig53 m + m / 9007199254740992 ∧ roundSig53 m ≤ m + m / 9007199254740992 := by
  unfold roundSig53
  simp only
  generalize hs : excessBits m m = s
  have hspec := excessBits_spec m m
  rw [hs] at hspec
  generalize hP : 2 ^ s = P at *
  have hPpos : 0 < P := by rw [← hP]; positivity
  have hdm := Nat.div_add_mod m P
  have hr := Nat.mod_lt m hPpos
  have hcomm : m / P * P = P * (m / P) := Nat.mul_comm _ _
  have hsucc : (m / P + 1) * P = P * (m / P) + P := by ring
  rw [hcomm, hsucc]
  generalize P * (m / P) = X at *
  generalize m % P = r at *
  have hP1 : P = 1 ∨ P * 4503599627370496 ≤ m := by
    rcases hspec with h0 | h1
    · left; rw [← hP, h0]; rfl
    · right; exact h1
  split
  · rename_i hc
    rcases hP1 with h1 | h1
    · omega
    · omega
  · rename_i hc
    have hc' : 2 * r ≤ P := by
      by_contra hlt
      exact hc (Or.inl (by omega))
    rcases hP1 with h1 | h1
    · omega
    · omega

/-- The value `int64(float64(a) * 1.5)` for a positive quota, through the rounded magnitudes. -/
theorem toplimit_of_pos (n : Nat) (hn : 0 < n) (hmax : n ≤ 9223372036854775) :
    int64OfHalves (mulOneAndHalf (float64OfInt64 (n : Int))) =
      ((roundSig53 (3 * roundSig53 n) / 2 : Nat) : Int) ∧
    0 < roundSig53 n := by
  have hb1 := roundSig53_bounds n
  have hf : 0 < roundSig53 n := by omega
  have hb2 := roundSig53_bounds (3 * roundSig53 n)
  refine ⟨?_, hf⟩
  have hs1 : Int.sign (n : Int) = 1 := Int.sign_eq_one_of_pos (by exact_mod_cast hn)
  have hs2 : Int.sign ((roundSig53 n : Nat) : Int) = 1 :=
    Int.sign_eq_one_of_pos (by exact_mod_cast hf)
  unfold float64OfInt64 mulOneAndHalf
  rw [hs1, Int.natAbs_ofNat, one_mul, hs2, Int.natAbs_ofNat, one_mul]
  unfold int64OfHalves
  have ht : Int.tdiv ((roundSig53 (3 * roundSig53 n) : Nat) : Int) 2 =
      ((roundSig53 (3 * roundSig53 n) / 2 : Nat) : Int) := by
    rw [Int.tdiv_eq_ediv (by positivity) (by decide)]
    norm_cast
  simp only [ht]
  have hr : MinInt64 ≤ ((roundSig53 (3 * roundSig53 n) / 2 : Nat) : Int) ∧
      ((roundSig53 (3 * roundSig53 n) / 2 : Nat) : Int) ≤ MaxInt64 := by
    unfold MinInt64 MaxInt64
    omega
  simp only [hr, and_self, if_true]

/-- The stored ceiling is never below the stored quota. -/
theorem toplimit_ge (a : Int) (h0 : 0 ≤ a) (hmax : a ≤ 9223372036854775) :
    a ≤ int64OfHalves (mulOneAndHalf (float64OfInt64 a)) := by
  obtain ⟨n, rfl⟩ := Int.eq_ofNat_of_zero_le h0
  rcases Nat.eq_zero_or_pos n with hz | hpos
  · subst hz; decide
  · have hn : n ≤ 9223372036854775 := by omega
    rw [(toplimit_of_pos n hpos hn).1]
    have hb1 := roundSig53_bounds n
    have hb2 := roundSig53_bounds (3 * roundSig53 n)
    omega

/-- The stored ceiling is the exact `floor (3 a / 2)` up to `a = 3002399751580332`. -/
theorem toplimit_exact (a : Int) (h0 : 0 ≤ a) (hmax : a ≤ 3002399751580332) :
    int64OfHalves (mulOneAndHalf (float64OfInt64 a)) = burstCeilingSpec a := by
  obtain ⟨n, rfl⟩ := Int.eq_ofNat_of_zero_le h0
  unfold burstCeilingSpec
  rcases Nat.eq_zero_or_pos n with hz | hpos
  · subst hz; decide
  · have hn : n ≤ 3002399751580332 := by omega
    by_cases hsmall : n ≤ 3002399751580330
    · rw [(toplimit_of_pos n hpos (by omega)).1]
      rw [roundSig53_of_lt n (by omega), roundSig53_of_lt (3 * n) (by omega)]
      omega
    · have hcase : n = 3002399751580331 ∨ n = 3002399751580332 := by omega
      rcases hcase with h | h
      · subst h; decide
      · subst h; decide

/-! ## Registration -/

theorem RegisterCaller_of_valid [RuneTable] (tc : TrafficController) (service productid acckey : String)
    (appliedqps bucket : Int)
    (hvalid : ¬ (service = "" ∨ productid = "" ∨ acckey = "" ∨ appliedqps < 0 ∨ bucket < 0)) :
    RegisterCaller tc service productid acckey appliedqps bucket =
      (⟨mapSet tc.TrafficCtrl (GenerateKey service productid acckey)
          (freshCounter appliedqps bucket tc.Period), tc.Period⟩, none) := by
  simp only [RegisterCaller, hvalid, if_false, freshCounter]

theorem RegisterCaller_valid_of_ok [RuneTable] (tc : TrafficController) (service productid acckey : String)
    (appliedqps bucket : Int)
    (hok : (RegisterCaller tc service productid acckey appliedqps bucket).2 = none) :
    ¬ (service = "" ∨ productid = "" ∨ acckey = "" ∨ appliedqps < 0 ∨ bucket < 0) := by
  intro h
  simp [RegisterCaller, h] at hok

theorem RegisterCaller_get [RuneTable] (tc : TrafficController) (service productid acckey : String)
    (appliedqps bucket : Int)
    (hok : (RegisterCaller tc service productid acckey appliedqps bucket).2 = none) :
    mapGet (RegisterCaller tc service productid acckey appliedqps bucket).1.TrafficCtrl
      (GenerateKey service productid acckey) = some (freshCounter appliedqps bucket tc.Period) := by
  rw [RegisterCaller_of_valid tc _ _ _ _ _ (RegisterCaller_valid_of_ok tc _ _ _ _ _ hok)]
  exact mapGet_mapSet_self _ _ _

/-- C2: the code on the claim's scenario.  With period 1000, `RegisterCaller(A, 10, 5)` stores
`AppliedQps = 10`, `Bucket = 5`, `Toplimit = 15` as claimed, but of 20 consecutive admission
checks the first 16 return `(false, 0)` and only the 17th to the 20th return `(true, 1)`: the
16th call (index 15) reads the tally 15, tests `15 > Toplimit` and is served, one call more
than the ceiling of 15 that the claim and the comment on `Toplimit` state. -/
theorem IsTrafficCtrl_sixteenth_call_admitted :
    mapGet (RegisterCaller ⟨[], 1000⟩ "A" "p" "k" 10 5).1.TrafficCtrl (GenerateKey "A" "p" "k") =
      some ⟨10, 5, 15, 0, 0, false⟩ ∧
    (IsTrafficCtrlRepeat 20 (RegisterCaller ⟨[], 1000⟩ "A" "p" "k" 10 5).1 "A" "p" "k").1[15]? =
      some (false, 0) ∧
    (IsTrafficCtrlRepeat 20 (RegisterCaller ⟨[], 1000⟩ "A" "p" "k" 10 5).1 "A" "p" "k").1 =
      List.replicate 16 (false, 0) ++ List.replicate 4 (true, 1) := by
  decide

/-- C5 as stated fails: with period 1000 and `appliedqps = 9223372036854776` the product
leaves `int64`, and the stored `AppliedQps` is 1 where the scaling rule gives
9223372036854776. -/
theorem RegisterCaller_scaling_overflow :
    (RegisterCaller ⟨[], 1000⟩ "a" "p" "k" 9223372036854776 0).2 = none ∧
    mapGet (RegisterCaller ⟨[], 1000⟩ "a" "p" "k" 9223372036854776 0).1.TrafficCtrl
      (GenerateKey "a" "p" "k") = some ⟨1, 0, 1, 0, 0, false⟩ ∧
    scaledQuotaSpec 9223372036854776 1000 = 9223372036854776 := by
  decide

/-- C5, amended: after a successful `RegisterCaller` the stored `AppliedQps` follows the
scaling rule (0 for input 0, else `max 1 (floor (appliedqps * P / 1000))`) whenever
`appliedqps * P` is representable as an `int64`, and the stored `Bucket` follows it whenever
`bucket * P` is. -/
theorem RegisterCaller_scaling_in_range [RuneTable] (tc : TrafficController)
    (service productid acckey : String) (appliedqps bucket : Int)
    (hok : (RegisterCaller tc service productid acckey appliedqps bucket).2 = none) :
    ∃ c, mapGet (RegisterCaller tc service productid acckey appliedqps bucket).1.TrafficCtrl
        (GenerateKey service productid acckey) = some c ∧
      (IsInt64 (appliedqps * tc.Period) → c.AppliedQps = scaledQuotaSpec appliedqps tc.Period) ∧
      (IsInt64 (bucket * tc.Period) → c.Bucket = scaledQuotaSpec bucket tc.Period) := by
  have hv := RegisterCaller_valid_of_ok tc _ _ _ _ _ hok
  have hq : 0 ≤ appliedqps := by omega
  have hb : 0 ≤ bucket := by omega
  refine ⟨_, RegisterCaller_get tc _ _ _ _ _ hok, ?_, ?_⟩
  · intro hfit
    exact scaled_eq_spec appliedqps tc.Period hq hfit
  · intro hfit
    exact scaled_eq_spec bucket tc.Period hb hfit

/-- Witness of the amended C5: period 2000, inputs 10 and 5, as in the repository's test. -/
theorem RegisterCaller_scaling_in_range_witness :
    (RegisterCaller ⟨[], 2000⟩ "rgeo" "257" "k" 10 5).2 = none ∧
    IsInt64 (10 * 2000) ∧ IsInt64 (5 * 2000) ∧
    ∃ c, mapGet (RegisterCaller ⟨[], 2000⟩ "rgeo" "257" "k" 10 5).1.TrafficCtrl
        (GenerateKey "rgeo" "257" "k") = some c ∧
      c.AppliedQps = scaledQuotaSpec 10 2000 ∧ c.Bucket = scaledQuotaSpec 5 2000 :=
  ⟨by decide, by decide, by decide, by
    obtain ⟨c, hc, hq, hb⟩ :=
      RegisterCaller_scaling_in_range ⟨[], 2000⟩ "rgeo" "257" "k" 10 5 (by decide)
    exact ⟨c, hc, hq (by decide), hb (by decide)⟩⟩

/-- C6 as stated fails: with period 1000 and `appliedqps = 3002399751580333` the stored
`AppliedQps` is 3002399751580333 and the stored `Toplimit` is 4503599627370500, one more than
`floor (3 * AppliedQps / 2) = 4503599627370499` (the double product is a tie, rounded to
even). -/
theorem RegisterCaller_toplimit_rounds_up :
    (RegisterCaller ⟨[], 1000⟩ "a" "p" "k" 3002399751580333 0).2 = none ∧
    mapGet (RegisterCaller ⟨[], 1000⟩ "a" "p" "k" 3002399751580333 0).1.TrafficCtrl
      (GenerateKey "a" "p" "k") = some ⟨3002399751580333, 0, 4503599627370500, 0, 0, false⟩ ∧
    burstCeilingSpec 3002399751580333 = 4503599627370499 := by
  decide

/-- C6, amended: after a successful `RegisterCaller` the stored `Toplimit` equals
`floor (3 * AppliedQps / 2)` whenever the stored `AppliedQps` is at most 3002399751580332. -/
theorem RegisterCaller_toplimit_exact [RuneTable] (tc : TrafficController)
    (service productid acckey : String) (appliedqps bucket : Int)
    (hok : (RegisterCaller tc service productid acckey appliedqps bucket).2 = none) :
    ∃ c, mapGet (RegisterCaller tc service productid acckey appliedqps bucket).1.TrafficCtrl
        (GenerateKey service productid acckey) = some c ∧
      (c.AppliedQps ≤ 3002399751580332 → c.Toplimit = burstCeilingSpec c.AppliedQps) := by
  refine ⟨_, RegisterCaller_get tc _ _ _ _ _ hok, ?_⟩
  intro hle
  exact toplimit_exact _ (scaled_bounds appliedqps (appliedqps * tc.Period)).1 hle

/-- Witness of the amended C6 at the largest quota it covers. -/
theorem RegisterCaller_toplimit_exact_witness :
    (RegisterCaller ⟨[], 1000⟩ "a" "p" "k" 3002399751580332 0).2 = none ∧
    ∃ c, mapGet (RegisterCaller ⟨[], 1000⟩ "a" "p" "k" 3002399751580332 0).1.TrafficCtrl
        (GenerateKey "a" "p" "k") = some c ∧
      c.AppliedQps = 3002399751580332 ∧ c.Toplimit = burstCeilingSpec c.AppliedQps :=
  ⟨by decide, by
    obtain ⟨c, hc, him⟩ :=
      RegisterCaller_toplimit_exact ⟨[], 1000⟩ "a" "p" "k" 3002399751580332 0 (by decide)
    have hval : mapGet (RegisterCaller ⟨[], 1000⟩ "a" "p" "k" 3002399751580332 0).1.TrafficCtrl
        (GenerateKey "a" "p" "k") = some ⟨3002399751580332, 0, 4503599627370498, 0, 0, false⟩ := by
      decide
    have hceq : c = ⟨3002399751580332, 0, 4503599627370498, 0, 0, false⟩ :=
      Option.some.inj (hc.symm.trans hval)
    subst hceq
    exact ⟨_, hc, rfl, him (by decide)⟩⟩

/-! ## Frame of the admission check -/

/-- C8 as stated fails: a tally at `MaxInt64` is not increased by one, the atomic add wraps it
to `MinInt64`. -/
theorem IsTrafficCtrl_tally_wraps :
    mapGet (⟨[("A_p_k", ⟨10, 5, 15, 0, 9223372036854775807, false⟩)], 1000⟩ :
        TrafficController).TrafficCtrl (GenerateKey "a" "p" "k") =
      some ⟨10, 5, 15, 0, 9223372036854775807, false⟩ ∧
    (IsTrafficCtrl ⟨[("A_p_k", ⟨10, 5, 15, 0, 9223372036854775807, false⟩)], 1000⟩
        "a" "p" "k").1 = (true, 1) ∧
    mapGet (IsTrafficCtrl ⟨[("A_p_k", ⟨10, 5, 15, 0, 9223372036854775807, false⟩)], 1000⟩
        "a" "p" "k").2.TrafficCtrl (GenerateKey "a" "p" "k") =
      some ⟨10, 5, 15, 0, -9223372036854775808, false⟩ := by
  decide

/-- C8, amended: on a registered caller whose tally is below `MaxInt64`, one admission check
returns `(false, 0)` or `(true, 1)`, increases that caller's `CurrentCnt` by exactly one and
changes nothing else: its other five fields, the key list, every other key's counter and the
period stay as they were. -/
theorem IsTrafficCtrl_frame [RuneTable] (tc : TrafficController) (service productid acckey : String)
    (c : TrafficCounter)
    (hreg : mapGet tc.TrafficCtrl (GenerateKey service productid acckey) = some c)
    (hlo : MinInt64 ≤ c.CurrentCnt) (hhi : c.CurrentCnt < MaxInt64) :
    ((IsTrafficCtrl tc service productid acckey).1 = (false, 0) ∨
      (IsTrafficCtrl tc service productid acckey).1 = (true, 1)) ∧
    mapGet (IsTrafficCtrl tc service productid acckey).2.TrafficCtrl
        (GenerateKey service productid acckey) =
      some { c with CurrentCnt := c.CurrentCnt + 1 } ∧
    mapKeys (IsTrafficCtrl tc service productid acckey).2.TrafficCtrl = mapKeys tc.TrafficCtrl ∧
    (∀ k, k ≠ GenerateKey service productid acckey →
      mapGet (IsTrafficCtrl tc service productid acckey).2.TrafficCtrl k =
        mapGet tc.TrafficCtrl k) ∧
    (IsTrafficCtrl tc service productid acckey).2.Period = tc.Period := by
  have hw : wrap64 (c.CurrentCnt + 1) = c.CurrentCnt + 1 := by
    apply wrap64_of_IsInt64
    unfold IsInt64
    unfold MinInt64 at *
    unfold MaxInt64 at *
    omega
  rw [IsTrafficCtrl_of_get tc service productid acckey c hreg, hw]
  refine ⟨?_, mapGet_mapSet_self _ _ _, mapKeys_mapSet_of_get _ _ c _ hreg, ?_, rfl⟩
  · simp only [verdict]
    split
    · exact Or.inr rfl
    · exact Or.inl rfl
  · intro k hk
    exact mapGet_mapSet_ne _ _ _ _ hk

/-- Witness of the amended C8: a throttled caller next to another caller. -/
theorem IsTrafficCtrl_frame_witness :
    (mapGet (⟨[("A_p_k", ⟨10, 5, 15, 0, 16, false⟩), ("B_p_k", ⟨20, 5, 30, 7, 2, true⟩)],
        1000⟩ : TrafficController).TrafficCtrl (GenerateKey "a" "p" "k") =
      some ⟨10, 5, 15, 0, 16, false⟩ ∧
      MinInt64 ≤ (16 : Int) ∧ (16 : Int) < MaxInt64) ∧
    mapGet (IsTrafficCtrl ⟨[("A_p_k", ⟨10, 5, 15, 0, 16, false⟩),
        ("B_p_k", ⟨20, 5, 30, 7, 2, true⟩)], 1000⟩ "a" "p" "k").2.TrafficCtrl
        (GenerateKey "a" "p" "k") = some ⟨10, 5, 15, 0, 16 + 1, false⟩ :=
  ⟨by decide,
   (IsTrafficCtrl_frame ⟨[("A_p_k", ⟨10, 5, 15, 0, 16, false⟩),
      ("B_p_k", ⟨20, 5, 30, 7, 2, true⟩)], 1000⟩ "a" "p" "k" ⟨10, 5, 15, 0, 16, false⟩
      (by decide) (by decide) (by decide)).2.1⟩

/-! ## The tick, loop by loop -/

theorem mapGet_cons {α : Type} (k0 : String) (v0 : α) (rest : List (String × α)) (k : String) :
    mapGet ((k0, v0) :: rest) k = if k0 = k then some v0 else mapGet rest k := rfl

theorem KeysNodup_cons {α : Type} (k0 : String) (v0 : α) (rest : List (String × α))
    (h : KeysNodup ((k0, v0) :: rest)) : mapGet rest k0 = none ∧ KeysNodup rest := by
  have hnd : k0 ∉ mapKeys rest ∧ KeysNodup rest := by
    simpa [KeysNodup, mapKeys] using h
  exact ⟨(mapGet_eq_none_iff rest k0).2 hnd.1, hnd.2⟩

theorem mapKeys_eq_get_none {α β : Type} (m : List (String × α)) (m' : List (String × β))
    (hk : mapKeys m' = mapKeys m) (k : String) : mapGet m' k = none ↔ mapGet m k = none := by
  rw [mapGet_eq_none_iff, mapGet_eq_none_iff, hk]

theorem writeCountLoop_fst (Redis : Store) (day hour : Nat) (expire : Int) :
    ∀ (es : List (String × TrafficCounter)) (respone : List (String × Int)),
      (writeCountLoop Redis day hour expire es respone).1 =
        es.map (fun p => (p.1, { p.2 with CurrentCnt := 0 })) := by
  intro es
  induction es with
  | nil => intro r; rfl
  | cons p rest ih =>
    intro r
    obtain ⟨k0, v0⟩ := p
    unfold writeCountLoop
    cases hinc : Redis.IncrBy (rediskey k0 day hour) v0.CurrentCnt with
    | none => simp only [hinc, List.map_cons, ih]
    | some T => simp only [hinc, List.map_cons, ih]

theorem writeCountLoop_snd (Redis : Store) (day hour : Nat) (expire : Int) :
    ∀ (es : List (String × TrafficCounter)) (respone : List (String × Int)),
      KeysNodup es →
      (∀ k c T, mapGet es k = some c →
          Redis.IncrBy (rediskey k day hour) c.CurrentCnt = some T →
          mapGet (writeCountLoop Redis day hour expire es respone).2 k = some T) ∧
      (∀ k c, mapGet es k = some c →
          Redis.IncrBy (rediskey k day hour) c.CurrentCnt = none →
          mapGet (writeCountLoop Redis day hour expire es respone).2 k = mapGet respone k) ∧
      (∀ k, mapGet es k = none →
          mapGet (writeCountLoop Redis day hour expire es respone).2 k = mapGet respone k) := by
  intro es
  induction es with
  | nil =>
    intro r _
    refine ⟨?_, ?_, ?_⟩
    · intro k c T h; simp [mapGet] at h
    · intro k c h; simp [mapGet] at h
    · intro k _; rfl
  | cons p rest ih =>
    intro r hnd
    obtain ⟨k0, v0⟩ := p
    obtain ⟨hk0, hrest⟩ := KeysNodup_cons k0 v0 rest hnd
    unfold writeCountLoop
    cases hinc : Redis.IncrBy (rediskey k0 day hour) v0.CurrentCnt with
    | none =>
      obtain ⟨iha, ihb, ihc⟩ := ih r hrest
      simp only [hinc]
      refine ⟨?_, ?_, ?_⟩
      · intro k c T hget hT
        rw [mapGet_cons] at hget
        by_cases hk : k0 = k
        · subst hk
          simp only [if_true, Option.some.injEq] at hget
          subst hget
          rw [hinc] at hT
          cases hT
        · simp only [hk, if_false] at hget
          exact iha k c T hget hT
      · intro k c hget hN
        rw [mapGet_cons] at hget
        by_cases hk : k0 = k
        · subst hk
          exact ihc k0 hk0
        · simp only [hk, if_false] at hget
          exact ihb k c hget hN
      · intro k hget
        rw [mapGet_cons] at hget
        by_cases hk : k0 = k
        · simp [hk] at hget
        · simp only [hk, if_false] at hget
          exact ihc k hget
    | some T0 =>
      obtain ⟨iha, ihb, ihc⟩ := ih (mapSet r k0 T0) hrest
      simp only [hinc]
      refine ⟨?_, ?_, ?_⟩
      · intro k c T hget hT
        rw [mapGet_cons] at hget
        by_cases hk : k0 = k
        · subst hk
          simp only [if_true, Option.some.injEq] at hget
          subst hget
          rw [hinc] at hT
          cases hT
          rw [ihc k0 hk0]
          exact mapGet_mapSet_self _ _ _
        · simp only [hk, if_false] at hget
          exact iha k c T hget hT
      · intro k c hget hN
        rw [mapGet_cons] at hget
        by_cases hk : k0 = k
        · subst hk
          simp only [if_true, Option.some.injEq] at hget
          subst hget
          rw [hinc] at hN
          cases hN
        · simp only [hk, if_false] at hget
          rw [ihb k c hget hN]
          exact mapGet_mapSet_ne _ _ _ _ (Ne.symm hk)
      · intro k hget
        rw [mapGet_cons] at hget
        by_cases hk : k0 = k
        · simp [hk] at hget
        · simp only [hk, if_false] at hget
          rw [ihc k hget]
          exact mapGet_mapSet_ne _ _ _ _ (Ne.symm hk)

theorem writeCountLoop_snd_nodup (Redis : Store) (day hour : Nat) (expire : Int) :
    ∀ (es : List (String × TrafficCounter)) (respone : List (String × Int)),
      KeysNodup respone → KeysNodup (writeCountLoop Redis day hour expire es respone).2 := by
  intro es
  induction es with
  | nil => intro r hr; exact hr
  | cons p rest ih =>
    intro r hr
    obtain ⟨k0, v0⟩ := p
    unfold writeCountLoop
    cases hinc : Redis.IncrBy (rediskey k0 day hour) v0.CurrentCnt with
    | none => simp only [hinc]; exact ih r hr
    | some T0 => simp only [hinc]; exact ih _ (KeysNodup_mapSet r k0 T0 hr)

theorem setTrafficLimitDecide_spec (resp : List (String × Int)) :
    ∀ (rs : List (String × Int)) (reg : List (String × TrafficCounter))
      (limit : List (String × Bool)),
      KeysNodup rs → (∀ k v, mapGet rs k = some v → mapGet resp k = some v) →
      mapKeys (setTrafficLimitDecide resp rs reg limit).1 = mapKeys reg ∧
      (∀ k c T, mapGet reg k = some c → mapGet rs k = some T →
        mapGet (setTrafficLimitDecide resp rs reg limit).1 k =
            some { c with LastTotalCnt := T } ∧
        mapGet (setTrafficLimitDecide resp rs reg limit).2 k =
            some (decide (wrap64 (T - c.LastTotalCnt) > c.AppliedQps))) ∧
      (∀ k, mapGet rs k = none ∨ mapGet reg k = none →
        mapGet (setTrafficLimitDecide resp rs reg limit).1 k = mapGet reg k ∧
        mapGet (setTrafficLimitDecide resp rs reg limit).2 k = mapGet limit k) ∧
      (KeysNodup limit → KeysNodup (setTrafficLimitDecide resp rs reg limit).2) := by
  intro rs
  induction rs with
  | nil =>
    intro reg limit _ _
    refine ⟨rfl, ?_, ?_, fun h => h⟩
    · intro k c T _ h; simp [mapGet] at h
    · intro k _; exact ⟨rfl, rfl⟩
  | cons p rest ih =>
    intro reg limit hnd hresp
    obtain ⟨k0, v0⟩ := p
    obtain ⟨hk0, hrest⟩ := KeysNodup_cons k0 v0 rest hnd
    have hresp0 : mapGet resp k0 = some v0 := hresp k0 v0 (by simp [mapGet_cons])
    have hresp' : ∀ k v, mapGet rest k = some v → mapGet resp k = some v := by
      intro k v hkv
      apply hresp
      rw [mapGet_cons]
      by_cases hk : k0 = k
      · subst hk; rw [hk0] at hkv; cases hkv
      · simp only [hk, if_false]; exact hkv
    unfold setTrafficLimitDecide
    cases hreg : mapGet reg k0 with
    | none =>
      simp only [hreg]
      obtain ⟨ih1, ih2, ih3, ih4⟩ := ih reg limit hrest hresp'
      refine ⟨ih1, ?_, ?_, ih4⟩
      · intro k c T hc hT
        rw [mapGet_cons] at hT
        by_cases hk : k0 = k
        · subst hk; rw [hreg] at hc; cases hc
        · simp only [hk, if_false] at hT
          exact ih2 k c T hc hT
      · intro k hor
        rw [mapGet_cons] at hor
        by_cases hk : k0 = k
        · subst hk
          exact ih3 k0 (Or.inl hk0)
        · simp only [hk, if_false] at hor
          exact ih3 k hor
    | some ctrl =>
      simp only [hreg, hresp0, Option.getD_some]
      obtain ⟨ih1, ih2, ih3, ih4⟩ := ih (mapSet reg k0 { ctrl with LastTotalCnt := v0 })
        (mapSet limit k0 (decide (wrap64 (v0 - ctrl.LastTotalCnt) > ctrl.AppliedQps))) hrest hresp'
      refine ⟨?_, ?_, ?_, ?_⟩
      · rw [ih1]; exact mapKeys_mapSet_of_get reg k0 ctrl _ hreg
      · intro k c T hc hT
        rw [mapGet_cons] at hT
        by_cases hk : k0 = k
        · subst hk
          simp only [if_true, Option.some.injEq] at hT
          subst hT
          rw [hreg] at hc
          cases hc
          obtain ⟨h1, h2⟩ := ih3 k0 (Or.inl hk0)
          rw [h1, h2]
          exact ⟨mapGet_mapSet_self _ _ _, mapGet_mapSet_self _ _ _⟩
        · simp only [hk, if_false] at hT
          have hc' : mapGet (mapSet reg k0 { ctrl with LastTotalCnt := v0 }) k = some c := by
            rw [mapGet_mapSet_ne _ _ _ _ (Ne.symm hk)]; exact hc
          exact ih2 k c T hc' hT
      · intro k hor
        rw [mapGet_cons] at hor
        by_cases hk : k0 = k
        · subst hk
          simp [hreg] at hor
        · simp only [hk, if_false] at hor
          have hor' : mapGet rest k = none ∨
              mapGet (mapSet reg k0 { ctrl with LastTotalCnt := v0 }) k = none := by
            rw [mapGet_mapSet_ne _ _ _ _ (Ne.symm hk)]; exact hor
          obtain ⟨h1, h2⟩ := ih3 k hor'
          rw [h1, h2]
          exact ⟨mapGet_mapSet_ne _ _ _ _ (Ne.symm hk), mapGet_mapSet_ne _ _ _ _ (Ne.symm hk)⟩
      · intro hl
        exact ih4 (KeysNodup_mapSet limit k0 _ hl)

theorem setTrafficLimitCommit_spec :
    ∀ (limit : List (String × Bool)) (reg : List (String × TrafficCounter)),
      KeysNodup limit → (∀ k b, mapGet limit k = some b → mapGet reg k ≠ none) →
      ∃ reg', setTrafficLimitCommit limit reg = some reg' ∧
        mapKeys reg' = mapKeys reg ∧
        (∀ k c b, mapGet reg k = some c → mapGet limit k = some b →
          mapGet reg' k = some { c with TrafficLimit := b }) ∧
        (∀ k, mapGet limit k = none → mapGet reg' k = mapGet reg k) := by
  intro limit
  induction limit with
  | nil =>
    intro reg _ _
    refine ⟨reg, rfl, rfl, ?_, fun k _ => rfl⟩
    intro k c b _ h; simp [mapGet] at h
  | cons p rest ih =>
    intro reg hnd hin
    obtain ⟨k0, b0⟩ := p
    obtain ⟨hk0, hrest⟩ := KeysNodup_cons k0 b0 rest hnd
    have hreg0 : mapGet reg k0 ≠ none := hin k0 b0 (by simp [mapGet_cons])
    cases hreg : mapGet reg k0 with
    | none => exact absurd hreg hreg0
    | some ctrl =>
      have hin' : ∀ k b, mapGet rest k = some b →
          mapGet (mapSet reg k0 { ctrl with TrafficLimit := b0 }) k ≠ none := by
        intro k b hkb
        by_cases hk : k0 = k
        · subst hk; rw [hk0] at hkb; cases hkb
        · rw [mapGet_mapSet_ne _ _ _ _ (Ne.symm hk)]
          apply hin k b
          rw [mapGet_cons]; simp only [hk, if_false]; exact hkb
      obtain ⟨reg', h1, h2, h3, h4⟩ :=
        ih (mapSet reg k0 { ctrl with TrafficLimit := b0 }) hrest hin'
      refine ⟨reg', ?_, ?_, ?_, ?_⟩
      · unfold setTrafficLimitCommit
        simp only [hreg]
        exact h1
      · rw [h2]; exact mapKeys_mapSet_of_get reg k0 ctrl _ hreg
      · intro k c b hc hb
        rw [mapGet_cons] at hb
        by_cases hk : k0 = k
        · subst hk
          simp only [if_true, Option.some.injEq] at hb
          subst hb
          rw [hreg] at hc
          cases hc
          rw [h4 k0 hk0]
          exact mapGet_mapSet_self _ _ _
        · simp only [hk, if_false] at hb
          have hc' : mapGet (mapSet reg k0 { ctrl with TrafficLimit := b0 }) k = some c := by
            rw [mapGet_mapSet_ne _ _ _ _ (Ne.symm hk)]; exact hc
          exact h3 k c b hc' hb
      · intro k hkn
        rw [mapGet_cons] at hkn
        by_cases hk : k0 = k
        · simp [hk] at hkn
        · simp only [hk, if_false] at hkn
          rw [h4 k hkn]
          exact mapGet_mapSet_ne _ _ _ _ (Ne.symm hk)

/-- One tick never panics on a registry with distinct keys; it keeps the keys and the period
and turns the counter under every key `k` into `tickCounter … k`. -/
theorem writeCount_spec (tc : TrafficController) (Redis : Store) (day hour : Nat)
    (hnd : KeysNodup tc.TrafficCtrl) :
    ∃ tc', writeCount tc Redis day hour = some tc' ∧ tc'.Period = tc.Period ∧
      mapKeys tc'.TrafficCtrl = mapKeys tc.TrafficCtrl ∧
      ∀ k, mapGet tc'.TrafficCtrl k =
        (mapGet tc.TrafficCtrl k).map (tickCounter Redis day hour k) := by
  have hfst := writeCountLoop_fst Redis day hour EXPIRETIME tc.TrafficCtrl []
  obtain ⟨hBa, hBb, hBc⟩ := writeCountLoop_snd Redis day hour EXPIRETIME tc.TrafficCtrl [] hnd
  have hrnd := writeCountLoop_snd_nodup Redis day hour EXPIRETIME tc.TrafficCtrl []
    (by simp [KeysNodup, mapKeys])
  generalize hresp : (writeCountLoop Redis day hour EXPIRETIME tc.TrafficCtrl []).2 = resp at *
  have hreg0 : ∀ k, mapGet (tc.TrafficCtrl.map (fun p => (p.1, { p.2 with CurrentCnt := 0 }))) k =
      (mapGet tc.TrafficCtrl k).map (fun c => { c with CurrentCnt := 0 }) := fun k =>
    mapGet_map tc.TrafficCtrl (fun _ c => { c with CurrentCnt := 0 }) k
  have hkeys0 : mapKeys (tc.TrafficCtrl.map (fun p => (p.1, { p.2 with CurrentCnt := 0 }))) =
      mapKeys tc.TrafficCtrl := by
    simp [mapKeys, List.map_map, Function.comp]
  generalize hr0 : tc.TrafficCtrl.map (fun p => (p.1, { p.2 with CurrentCnt := 0 })) = reg0 at *
  obtain ⟨hD1, hD2, hD3, hD4⟩ := setTrafficLimitDecide_spec resp resp reg0 [] hrnd
    (fun _ _ h => h)
  have hlnd := hD4 (by simp [KeysNodup, mapKeys])
  generalize hdec : setTrafficLimitDecide resp resp reg0 [] = dec at *
  have hin : ∀ k b, mapGet dec.2 k = some b → mapGet dec.1 k ≠ none := by
    intro k b hkb hnone
    have h0 : mapGet reg0 k = none := (mapKeys_eq_get_none reg0 dec.1 hD1 k).1 hnone
    have := (hD3 k (Or.inr h0)).2
    rw [hkb] at this
    simp [mapGet] at this
  obtain ⟨reg', hE1, hE2, hE3, hE4⟩ := setTrafficLimitCommit_spec dec.2 dec.1 hlnd hin
  refine ⟨⟨reg', tc.Period⟩, ?_, rfl, ?_, ?_⟩
  · unfold writeCount setTrafficLimit
    simp only [hfst, hr0, hresp, hdec, hE1, Option.map_some']
  · simp only [hE2, hD1, hkeys0]
  · intro k
    simp only
    cases hc : mapGet tc.TrafficCtrl k with
    | none =>
      have h0 : mapGet reg0 k = none := by rw [hreg0, hc]; rfl
      obtain ⟨h1, h2⟩ := hD3 k (Or.inr h0)
      have h2' : mapGet dec.2 k = none := by rw [h2]; rfl
      rw [hE4 k h2', h1, h0]
      rfl
    | some c =>
      have h0 : mapGet reg0 k = some { c with CurrentCnt := 0 } := by rw [hreg0, hc]; rfl
      cases hinc : Redis.IncrBy (rediskey k day hour) c.CurrentCnt with
      | none =>
        have hrk : mapGet resp k = none := by rw [hBb k c hc hinc]; rfl
        obtain ⟨h1, h2⟩ := hD3 k (Or.inl hrk)
        have h2' : mapGet dec.2 k = none := by rw [h2]; rfl
        rw [hE4 k h2', h1, h0]
        simp [tickCounter, hinc]
      | some T =>
        have hrk : mapGet resp k = some T := hBa k c T hc hinc
        obtain ⟨h1, h2⟩ := hD2 k _ T h0 hrk
        rw [hE3 k _ _ h1 h2]
        simp [tickCounter, hinc]

/-! ## Reconciliation claims -/

theorem tickCounter_quota (Redis : Store) (day hour : Nat) (k : String) (c : TrafficCounter) :
    (tickCounter Redis day hour k c).AppliedQps = c.AppliedQps ∧
    (tickCounter Redis day hour k c).Toplimit = c.Toplimit := by
  unfold tickCounter
  split <;> exact ⟨rfl, rfl⟩

/-- C9 as stated fails: with `LastTotalCnt = -1`, `AppliedQps = 10` and a store total of
`MaxInt64`, the exact difference `2^63` exceeds the quota, yet the `int64` subtraction wraps to
`MinInt64` and the tick leaves `TrafficLimit` false. -/
theorem writeCount_increment_wraps :
    writeCount ⟨[("A_p_k", ⟨10, 5, 15, -1, 3, false⟩)], 1000⟩
        ⟨fun _ _ => some 9223372036854775807, fun _ _ => false⟩ 4 11 =
      some ⟨[("A_p_k", ⟨10, 5, 15, 9223372036854775807, 0, false⟩)], 1000⟩ ∧
    decide ((9223372036854775807 : Int) - (-1) > 10) = true := by
  decide

/-- C9, amended: in a tick, a registered caller whose `IncrBy` succeeds with total `T`, and
for which `T - LastTotalCnt` is representable as an `int64` (as it is on the first tick, where
`LastTotalCnt = 0`), ends with `TrafficLimit = (T - oldLastTotalCnt > AppliedQps)` and
`LastTotalCnt = T`. -/
theorem writeCount_success_decision (tc : TrafficController) (Redis : Store) (day hour : Nat)
    (k : String) (c : TrafficCounter) (T : Int)
    (hnd : KeysNodup tc.TrafficCtrl) (hreg : mapGet tc.TrafficCtrl k = some c)
    (hstore : Redis.IncrBy (rediskey k day hour) c.CurrentCnt = some T)
    (hfit : IsInt64 (T - c.LastTotalCnt)) :
    ∃ tc' c', writeCount tc Redis day hour = some tc' ∧ mapGet tc'.TrafficCtrl k = some c' ∧
      c'.TrafficLimit = decide (T - c.LastTotalCnt > c.AppliedQps) ∧ c'.LastTotalCnt = T ∧
      (c.LastTotalCnt = 0 → c'.TrafficLimit = decide (T > c.AppliedQps)) := by
  obtain ⟨tc', hrun, _, _, hget⟩ := writeCount_spec tc Redis day hour hnd
  refine ⟨tc', tickCounter Redis day hour k c, hrun, ?_, ?_, ?_, ?_⟩
  · rw [hget k, hreg]; rfl
  · simp [tickCounter, hstore, wrap64_of_IsInt64 _ hfit]
  · simp [tickCounter, hstore]
  · intro h0
    have hT : wrap64 T = T := by
      have := wrap64_of_IsInt64 _ hfit
      rwa [h0, sub_zero] at this
    simp [tickCounter, hstore, h0, hT]

/-- Witness of the amended C9: first tick of a caller with quota 10 and a store total of 25. -/
theorem writeCount_success_decision_witness :
    (KeysNodup (⟨[("A_p_k", ⟨10, 5, 15, 0, 3, false⟩)], 1000⟩ : TrafficController).TrafficCtrl ∧
      mapGet (⟨[("A_p_k", ⟨10, 5, 15, 0, 3, false⟩)], 1000⟩ : TrafficController).TrafficCtrl
        "A_p_k" = some ⟨10, 5, 15, 0, 3, false⟩ ∧
      (⟨fun _ d => some (22 + d), fun _ _ => false⟩ : Store).IncrBy (rediskey "A_p_k" 4 11) 3 =
        some 25 ∧
      IsInt64 (25 - 0)) ∧
    ∃ tc' c', writeCount ⟨[("A_p_k", ⟨10, 5, 15, 0, 3, false⟩)], 1000⟩
        ⟨fun _ d => some (22 + d), fun _ _ => false⟩ 4 11 = some tc' ∧
      mapGet tc'.TrafficCtrl "A_p_k" = some c' ∧ c'.TrafficLimit = true ∧
      c'.LastTotalCnt = 25 := by
  refine ⟨by decide, ?_⟩
  obtain ⟨tc', c', h1, h2, h3, h4, _⟩ :=
    writeCount_success_decision ⟨[("A_p_k", ⟨10, 5, 15, 0, 3, false⟩)], 1000⟩
      ⟨fun _ d => some (22 + d), fun _ _ => false⟩ 4 11 "A_p_k" ⟨10, 5, 15, 0, 3, false⟩ 25
      (by decide) (by decide) (by decide) (by decide)
  exact ⟨tc', c', h1, h2, by rw [h3]; decide, h4⟩

/-- C10: in a tick, a registered caller `B` whose `IncrBy` fails keeps its `TrafficLimit` and
`LastTotalCnt`; the tick still returns normally, and every caller whose `IncrBy` succeeds
with total `T` gets `LastTotalCnt = T` and a throttle flag recomputed from the `int64`
difference `T - oldLastTotalCnt`. -/
theorem writeCount_store_error (tc : TrafficController) (Redis : Store) (day hour : Nat)
    (kB : String) (cB : TrafficCounter)
    (hnd : KeysNodup tc.TrafficCtrl) (hreg : mapGet tc.TrafficCtrl kB = some cB)
    (hfail : Redis.IncrBy (rediskey kB day hour) cB.CurrentCnt = none) :
    ∃ tc', writeCount tc Redis day hour = some tc' ∧
      (∃ cB', mapGet tc'.TrafficCtrl kB = some cB' ∧ cB'.TrafficLimit = cB.TrafficLimit ∧
        cB'.LastTotalCnt = cB.LastTotalCnt) ∧
      (∀ k c T, mapGet tc.TrafficCtrl k = some c →
        Redis.IncrBy (rediskey k day hour) c.CurrentCnt = some T →
        ∃ c', mapGet tc'.TrafficCtrl k = some c' ∧ c'.LastTotalCnt = T ∧
          c'.TrafficLimit = decide (wrap64 (T - c.LastTotalCnt) > c.AppliedQps)) := by
  obtain ⟨tc', hrun, _, _, hget⟩ := writeCount_spec tc Redis day hour hnd
  refine ⟨tc', hrun, ⟨tickCounter Redis day hour kB cB, ?_, ?_, ?_⟩, ?_⟩
  · rw [hget kB, hreg]; rfl
  · simp [tickCounter, hfail]
  · simp [tickCounter, hfail]
  · intro k c T hc hT
    refine ⟨tickCounter Redis day hour k c, ?_, ?_, ?_⟩
    · rw [hget k, hc]; rfl
    · simp [tickCounter, hT]
    · simp [tickCounter, hT]

/-- Witness of C10: the store fails for `B_p_k` (delta 2) and answers 40 for `A_p_k`. -/
theorem writeCount_store_error_witness :
    (KeysNodup (⟨[("A_p_k", ⟨10, 5, 15, 8, 3, false⟩), ("B_p_k", ⟨20, 5, 30, 7, 2, true⟩)],
        1000⟩ : TrafficController).TrafficCtrl ∧
      mapGet (⟨[("A_p_k", ⟨10, 5, 15, 8, 3, false⟩), ("B_p_k", ⟨20, 5, 30, 7, 2, true⟩)],
        1000⟩ : TrafficController).TrafficCtrl "B_p_k" = some ⟨20, 5, 30, 7, 2, true⟩ ∧
      (⟨fun _ d => if d = 2 then none else some 40, fun _ _ => false⟩ : Store).IncrBy
        (rediskey "B_p_k" 4 11) 2 = none) ∧
    ∃ tc', writeCount
        ⟨[("A_p_k", ⟨10, 5, 15, 8, 3, false⟩), ("B_p_k", ⟨20, 5, 30, 7, 2, true⟩)], 1000⟩
        ⟨fun _ d => if d = 2 then none else some 40, fun _ _ => false⟩ 4 11 = some tc' ∧
      ∃ cB', mapGet tc'.TrafficCtrl "B_p_k" = some cB' ∧ cB'.TrafficLimit = true ∧
        cB'.LastTotalCnt = 7 := by
  refine ⟨by decide, ?_⟩
  obtain ⟨tc', h1, h2, _⟩ :=
    writeCount_store_error
      ⟨[("A_p_k", ⟨10, 5, 15, 8, 3, false⟩), ("B_p_k", ⟨20, 5, 30, 7, 2, true⟩)], 1000⟩
      ⟨fun _ d => if d = 2 then none else some 40, fun _ _ => false⟩ 4 11 "B_p_k"
      ⟨20, 5, 30, 7, 2, true⟩ (by decide) (by decide) (by decide)
  exact ⟨tc', h1, h2⟩

/-! ## Reachable states -/

theorem freshCounter_ceiling (appliedqps bucket Period : Int) :
    (freshCounter appliedqps bucket Period).AppliedQps ≤
      (freshCounter appliedqps bucket Period).Toplimit := by
  have hb := scaled_bounds appliedqps (appliedqps * Period)
  exact toplimit_ge _ hb.1 hb.2

theorem CeilingAboveQuota_mapSet (reg : List (String × TrafficCounter)) (k : String)
    (v : TrafficCounter) (hreg : CeilingAboveQuota reg) (hv : v.AppliedQps ≤ v.Toplimit) :
    CeilingAboveQuota (mapSet reg k v) := by
  intro p hp
  rcases mem_mapSet reg k v p hp with h | h
  · exact hreg p h
  · subst h; exact hv

theorem RegisterCaller_preserves [RuneTable] (tc : TrafficController) (service productid acckey : String)
    (appliedqps bucket : Int)
    (h : KeysNodup tc.TrafficCtrl ∧ CeilingAboveQuota tc.TrafficCtrl) :
    KeysNodup (RegisterCaller tc service productid acckey appliedqps bucket).1.TrafficCtrl ∧
    CeilingAboveQuota
      (RegisterCaller tc service productid acckey appliedqps bucket).1.TrafficCtrl := by
  by_cases hv : service = "" ∨ productid = "" ∨ acckey = "" ∨ appliedqps < 0 ∨ bucket < 0
  · simp only [RegisterCaller, hv, if_true]; exact h
  · rw [RegisterCaller_of_valid tc _ _ _ _ _ hv]
    exact ⟨KeysNodup_mapSet _ _ _ h.1,
      CeilingAboveQuota_mapSet _ _ _ h.2 (freshCounter_ceiling _ _ _)⟩

theorem IsTrafficCtrl_preserves [RuneTable] (tc : TrafficController) (service productid acckey : String)
    (h : KeysNodup tc.TrafficCtrl ∧ CeilingAboveQuota tc.TrafficCtrl) :
    KeysNodup (IsTrafficCtrl tc service productid acckey).2.TrafficCtrl ∧
    CeilingAboveQuota (IsTrafficCtrl tc service productid acckey).2.TrafficCtrl := by
  cases hget : mapGet tc.TrafficCtrl (GenerateKey service productid acckey) with
  | none => simp only [IsTrafficCtrl, hget]; exact h
  | some c =>
    rw [IsTrafficCtrl_of_get tc _ _ _ c hget]
    exact ⟨KeysNodup_mapSet _ _ _ h.1,
      CeilingAboveQuota_mapSet _ _ _ h.2 (h.2 _ (mem_of_mapGet _ _ _ hget))⟩

theorem writeCount_preserves (tc tc' : TrafficController) (Redis : Store) (day hour : Nat)
    (h : KeysNodup tc.TrafficCtrl ∧ CeilingAboveQuota tc.TrafficCtrl)
    (hrun : writeCount tc Redis day hour = some tc') :
    KeysNodup tc'.TrafficCtrl ∧ CeilingAboveQuota tc'.TrafficCtrl := by
  obtain ⟨tc'', hrun', _, hkeys, hget⟩ := writeCount_spec tc Redis day hour h.1
  rw [hrun] at hrun'
  cases hrun'
  have hnd' : KeysNodup tc'.TrafficCtrl := by
    unfold KeysNodup; rw [hkeys]; exact h.1
  refine ⟨hnd', ?_⟩
  intro p hp
  obtain ⟨k, c'⟩ := p
  have hg := mapGet_of_mem _ k c' hnd' hp
  rw [hget k] at hg
  cases hc : mapGet tc.TrafficCtrl k with
  | none => rw [hc] at hg; cases hg
  | some c =>
    rw [hc] at hg
    simp only [Option.map_some', Option.some.injEq] at hg
    subst hg
    have hq := tickCounter_quota Redis day hour k c
    simp only [hq.1, hq.2]
    exact h.2 _ (mem_of_mapGet _ _ _ hc)

theorem Reachable_invariant [RuneTable] (tc : TrafficController) (h : Reachable tc) :
    KeysNodup tc.TrafficCtrl ∧ CeilingAboveQuota tc.TrafficCtrl := by
  induction h with
  | empty P =>
    constructor
    · simp [KeysNodup, mapKeys]
    · intro p hp; simp at hp
  | register tc s p a q b _ ih => exact RegisterCaller_preserves tc s p a q b ih
  | check tc s p a _ ih => exact IsTrafficCtrl_preserves tc s p a ih
  | tick tc tc' R d hr _ hrun ih => exact writeCount_preserves tc tc' R d hr ih hrun

/-- C7: in every state reachable from an empty registry by registrations, admission checks
and reconciliation ticks with arbitrary store answers, every counter in the registry has
`Toplimit ≥ AppliedQps`. -/
theorem Reachable_toplimit_ge_appliedqps [RuneTable] (tc : TrafficController) (h : Reachable tc)
    (k : String) (c : TrafficCounter) (hmem : (k, c) ∈ tc.TrafficCtrl) :
    c.Toplimit ≥ c.AppliedQps :=
  (Reachable_invariant tc h).2 (k, c) hmem

/-- Witness of C7: the state after one registration that stores the largest possible quota. -/
theorem Reachable_toplimit_ge_appliedqps_witness :
    (Reachable (RegisterCaller ⟨[], 1000⟩ "a" "p" "k" 9223372036854775 5).1 ∧
      (("A_p_k", ⟨9223372036854775, 5, 13835058055282164, 0, 0, false⟩) :
          String × TrafficCounter) ∈
        (RegisterCaller ⟨[], 1000⟩ "a" "p" "k" 9223372036854775 5).1.TrafficCtrl) ∧
    (13835058055282164 : Int) ≥ 9223372036854775 :=
  ⟨⟨Reachable.register _ _ _ _ _ _ (Reachable.empty 1000), by decide⟩,
   Reachable_toplimit_ge_appliedqps _
     (Reachable.register ⟨[], 1000⟩ "a" "p" "k" 9223372036854775 5 (Reachable.empty 1000))
     "A_p_k" ⟨9223372036854775, 5, 13835058055282164, 0, 0, false⟩ (by decide)⟩

/-! ## Sequences of admission checks -/

theorem wrap64_wrap64_add (x y : Int) : wrap64 (wrap64 x + y) = wrap64 (x + y) := by
  unfold wrap64
  omega

theorem IsTrafficCtrl_of_none [RuneTable] (tc : TrafficController) (service productid acckey : String)
    (hget : mapGet tc.TrafficCtrl (GenerateKey service productid acckey) = none) :
    IsTrafficCtrl tc service productid acckey = ((true, 2), tc) := by
  simp [IsTrafficCtrl, hget]

theorem IsTrafficCtrlRepeat_verdicts_wrap [RuneTable] (service productid acckey : String) (n : Nat) :
    ∀ (tc : TrafficController) (c : TrafficCounter),
      mapGet tc.TrafficCtrl (GenerateKey service productid acckey) = some c →
      IsInt64 c.CurrentCnt →
      (IsTrafficCtrlRepeat n tc service productid acckey).1 =
        (List.range n).map (fun (i : Nat) => verdict c (wrap64 (c.CurrentCnt + (i : Int)))) := by
  induction n with
  | zero => intro tc c _ _; simp [IsTrafficCtrlRepeat]
  | succ n ih =>
    intro tc c hget hc
    have hstep := IsTrafficCtrl_of_get tc service productid acckey c hget
    have hget' : mapGet
        (⟨mapSet tc.TrafficCtrl (GenerateKey service productid acckey)
          { c with CurrentCnt := wrap64 (c.CurrentCnt + 1) }, tc.Period⟩ :
            TrafficController).TrafficCtrl
        (GenerateKey service productid acckey) =
          some { c with CurrentCnt := wrap64 (c.CurrentCnt + 1) } :=
      mapGet_mapSet_self _ _ _
    have hrec := ih _ _ hget' (wrap64_IsInt64 _)
    simp only [IsTrafficCtrlRepeat, hstep, hrec, List.range_succ_eq_map, List.map_cons,
      List.map_map]
    refine congrArg₂ List.cons ?_ ?_
    · simp [wrap64_of_IsInt64 _ hc]
    · apply List.map_congr_left
      intro i _
      have e : wrap64 (wrap64 (c.CurrentCnt + 1) + (i : Int)) =
          wrap64 (c.CurrentCnt + ((i + 1 : Nat) : Int)) := by
        rw [wrap64_wrap64_add]; congr 1; push_cast; ring
      simp only [Function.comp, Nat.succ_eq_add_one, verdict, e]

theorem IsTrafficCtrlSeq_keys [RuneTable] (ids : List (String × String × String)) :
    ∀ tc : TrafficController,
      mapKeys (IsTrafficCtrlSeq ids tc).TrafficCtrl = mapKeys tc.TrafficCtrl ∧
      (IsTrafficCtrlSeq ids tc).Period = tc.Period := by
  induction ids with
  | nil => intro tc; exact ⟨rfl, rfl⟩
  | cons id rest ih =>
    intro tc
    obtain ⟨s, p, a⟩ := id
    simp only [IsTrafficCtrlSeq]
    obtain ⟨h1, h2⟩ := ih (IsTrafficCtrl tc s p a).2
    rw [h1, h2]
    cases hget : mapGet tc.TrafficCtrl (GenerateKey s p a) with
    | none => rw [IsTrafficCtrl_of_none tc s p a hget]; exact ⟨rfl, rfl⟩
    | some c0 =>
      rw [IsTrafficCtrl_of_get tc s p a c0 hget]
      exact ⟨mapKeys_mapSet_of_get _ _ c0 _ hget, rfl⟩

theorem IsTrafficCtrlSeq_get [RuneTable] (k : String) (ids : List (String × String × String)) :
    ∀ (tc : TrafficController) (c : TrafficCounter),
      mapGet tc.TrafficCtrl k = some c → IsInt64 c.CurrentCnt →
      mapGet (IsTrafficCtrlSeq ids tc).TrafficCtrl k =
        some { c with CurrentCnt := wrap64 (c.CurrentCnt + (reachingCalls k ids : Int)) } := by
  induction ids with
  | nil =>
    intro tc c hget hc
    simp [IsTrafficCtrlSeq, reachingCalls, wrap64_of_IsInt64 _ hc, hget]
  | cons id rest ih =>
    intro tc c hget hc
    obtain ⟨s, p, a⟩ := id
    simp only [IsTrafficCtrlSeq]
    by_cases hk : GenerateKey s p a = k
    · have hget0 : mapGet tc.TrafficCtrl (GenerateKey s p a) = some c := by rw [hk]; exact hget
      rw [IsTrafficCtrl_of_get tc s p a c hget0]
      have hget' : mapGet
          (⟨mapSet tc.TrafficCtrl (GenerateKey s p a)
            { c with CurrentCnt := wrap64 (c.CurrentCnt + 1) }, tc.Period⟩ :
              TrafficController).TrafficCtrl k =
            some { c with CurrentCnt := wrap64 (c.CurrentCnt + 1) } := by
        rw [hk]; exact mapGet_mapSet_self _ _ _
      rw [ih _ _ hget' (wrap64_IsInt64 _)]
      have hcount : reachingCalls k ((s, p, a) :: rest) = reachingCalls k rest + 1 := by
        simp [reachingCalls, hk]
      simp only [hcount, wrap64_wrap64_add]
      congr 3
      push_cast
      ring
    · have hcount : reachingCalls k ((s, p, a) :: rest) = reachingCalls k rest := by
        simp [reachingCalls, hk]
      rw [hcount]
      cases hget0 : mapGet tc.TrafficCtrl (GenerateKey s p a) with
      | none =>
        rw [IsTrafficCtrl_of_none tc s p a hget0]
        exact ih tc c hget hc
      | some c0 =>
        rw [IsTrafficCtrl_of_get tc s p a c0 hget0]
        apply ih _ c _ hc
        simp only
        rw [mapGet_mapSet_ne _ _ _ _ (Ne.symm hk)]
        exact hget

/-! ## Expire failures and the throttling threshold -/

theorem writeCountLoop_expire (f : String → Int → Option Int) (e₁ e₂ : String → Int → Bool)
    (day hour : Nat) (expire : Int) :
    ∀ (es : List (String × TrafficCounter)) (respone : List (String × Int)),
      writeCountLoop ⟨f, e₁⟩ day hour expire es respone =
        writeCountLoop ⟨f, e₂⟩ day hour expire es respone := by
  intro es
  induction es with
  | nil => intro r; rfl
  | cons p rest ih =>
    intro r
    obtain ⟨k0, v0⟩ := p
    unfold writeCountLoop
    cases hinc : f (rediskey k0 day hour) v0.CurrentCnt with
    | none => simp only [hinc, ih]
    | some T => simp only [hinc, ih]

theorem writeCount_expire (tc : TrafficController) (f : String → Int → Option Int)
    (e₁ e₂ : String → Int → Bool) (day hour : Nat) :
    writeCount tc ⟨f, e₁⟩ day hour = writeCount tc ⟨f, e₂⟩ day hour := by
  unfold writeCount
  rw [writeCountLoop_expire f e₁ e₂]

/-- C11 as stated fails: the store answers 25 to `IncrBy` and an error to `Expire`, yet the tick
refreshes the caller: `LastTotalCnt` goes from 0 to 25 and `TrafficLimit` from false to true. -/
theorem writeCount_refreshes_despite_expire_error :
    (⟨fun _ _ => some 25, fun _ _ => true⟩ : Store).IncrBy (rediskey "A_p_k" 4 11) 3 = some 25 ∧
    (⟨fun _ _ => some 25, fun _ _ => true⟩ : Store).Expire (rediskey "A_p_k" 4 11) EXPIRETIME =
      true ∧
    writeCount ⟨[("A_p_k", ⟨10, 5, 15, 0, 3, false⟩)], 1000⟩
        ⟨fun _ _ => some 25, fun _ _ => true⟩ 4 11 =
      some ⟨[("A_p_k", ⟨10, 5, 15, 25, 0, true⟩)], 1000⟩ := by
  decide

/-- C11, amended: in a tick, a registered caller whose `IncrBy` succeeds with total `T` and
whose `Expire` fails is refreshed all the same: `LastTotalCnt` becomes `T`, `TrafficLimit`
becomes the comparison of the `int64` difference `T - oldLastTotalCnt` with `AppliedQps`, and
the whole tick ends as it does with a store whose `Expire` never fails. -/
theorem writeCount_ignores_expire (tc : TrafficController) (Redis : Store) (day hour : Nat)
    (k : String) (c : TrafficCounter) (T : Int)
    (hnd : KeysNodup tc.TrafficCtrl) (hreg : mapGet tc.TrafficCtrl k = some c)
    (hstore : Redis.IncrBy (rediskey k day hour) c.CurrentCnt = some T)
    (_hexp : Redis.Expire (rediskey k day hour) EXPIRETIME = true) :
    ∃ tc' c', writeCount tc Redis day hour = some tc' ∧ mapGet tc'.TrafficCtrl k = some c' ∧
      c'.LastTotalCnt = T ∧
      c'.TrafficLimit = decide (wrap64 (T - c.LastTotalCnt) > c.AppliedQps) ∧
      writeCount tc ⟨Redis.IncrBy, fun _ _ => false⟩ day hour = some tc' := by
  obtain ⟨tc', hrun, _, _, hget⟩ := writeCount_spec tc Redis day hour hnd
  refine ⟨tc', tickCounter Redis day hour k c, hrun, ?_, ?_, ?_, ?_⟩
  · rw [hget k, hreg]; rfl
  · simp [tickCounter, hstore]
  · simp [tickCounter, hstore]
  · rw [← hrun]
    exact writeCount_expire tc Redis.IncrBy _ Redis.Expire day hour

/-- Witness of the amended C11: quota 10, old total 8, new total 40, `Expire` failing. -/
theorem writeCount_ignores_expire_witness :
    (KeysNodup (⟨[("A_p_k", ⟨10, 5, 15, 8, 3, false⟩)], 1000⟩ : TrafficController).TrafficCtrl ∧
      mapGet (⟨[("A_p_k", ⟨10, 5, 15, 8, 3, false⟩)], 1000⟩ : TrafficController).TrafficCtrl
        "A_p_k" = some ⟨10, 5, 15, 8, 3, false⟩ ∧
      (⟨fun _ _ => some 40, fun _ _ => true⟩ : Store).IncrBy (rediskey "A_p_k" 4 11) 3 =
        some 40 ∧
      (⟨fun _ _ => some 40, fun _ _ => true⟩ : Store).Expire (rediskey "A_p_k" 4 11)
        EXPIRETIME = true) ∧
    ∃ tc' c', writeCount ⟨[("A_p_k", ⟨10, 5, 15, 8, 3, false⟩)], 1000⟩
        ⟨fun _ _ => some 40, fun _ _ => true⟩ 4 11 = some tc' ∧
      mapGet tc'.TrafficCtrl "A_p_k" = some c' ∧ c'.LastTotalCnt = 40 ∧
      c'.TrafficLimit = true := by
  refine ⟨by decide, ?_⟩
  obtain ⟨tc', c', h1, h2, h3, h4, _⟩ :=
    writeCount_ignores_expire ⟨[("A_p_k", ⟨10, 5, 15, 8, 3, false⟩)], 1000⟩
      ⟨fun _ _ => some 40, fun _ _ => true⟩ 4 11 "A_p_k" ⟨10, 5, 15, 8, 3, false⟩ 40
      (by decide) (by decide) (by decide) (by decide)
  exact ⟨tc', c', h1, h2, h3, by rw [h4]; decide⟩

/-- C12 as stated fails, twice.  With `appliedqps = 2` and `bucket = 10` the registry holds
`Bucket = 10 > Toplimit = 3`; after a tick that sets `TrafficLimit`, the fifth check reads
`CurrentCnt = 4` and returns `(true, 1)` although `4 > Bucket` is false.  And with
`LastTotalCnt = -1` and a store total of `MaxInt64` the exact increase `2^63` exceeds the
quota, yet the tick leaves `TrafficLimit` false. -/
theorem IsTrafficCtrl_threshold_is_toplimit :
    (writeCount (RegisterCaller ⟨[], 1000⟩ "a" "p" "k" 2 10).1
        ⟨fun _ _ => some 100, fun _ _ => false⟩ 4 11 =
      some ⟨[("A_p_k", ⟨2, 10, 3, 100, 0, true⟩)], 1000⟩ ∧
     mapGet (IsTrafficCtrlSeq [("a", "p", "k"), ("a", "p", "k"), ("a", "p", "k"), ("a", "p", "k")]
        ⟨[("A_p_k", ⟨2, 10, 3, 100, 0, true⟩)], 1000⟩).TrafficCtrl (GenerateKey "a" "p" "k") =
      some ⟨2, 10, 3, 100, 4, true⟩ ∧
     (IsTrafficCtrl
        (IsTrafficCtrlSeq [("a", "p", "k"), ("a", "p", "k"), ("a", "p", "k"), ("a", "p", "k")]
          ⟨[("A_p_k", ⟨2, 10, 3, 100, 0, true⟩)], 1000⟩) "a" "p" "k").1 = (true, 1) ∧
     ¬ ((4 : Int) > 10)) ∧
    (writeCount ⟨[("B_p_k", ⟨10, 5, 15, -1, 0, false⟩)], 1000⟩
        ⟨fun _ _ => some 9223372036854775807, fun _ _ => false⟩ 4 11 =
      some ⟨[("B_p_k", ⟨10, 5, 15, 9223372036854775807, 0, false⟩)], 1000⟩ ∧
     (9223372036854775807 : Int) - (-1) > 10) := by
  decide

/-- C12, amended: when in a tick the store total `T` of a registered caller exceeds
`LastTotalCnt` by more than `AppliedQps`, and `T - LastTotalCnt` is representable as an
`int64`, the tick sets `TrafficLimit`; from then on, through any admission checks and until
the next tick, a check for that caller returns `(true, 1)` exactly when the tally it reads is
above `Bucket` or above `Toplimit`, hence exactly when it is above `Bucket` in case
`Bucket ≤ Toplimit`. -/
theorem writeCount_then_checks_threshold [RuneTable] (tc : TrafficController) (Redis : Store)
    (day hour : Nat) (service productid acckey : String) (c : TrafficCounter) (T : Int)
    (hnd : KeysNodup tc.TrafficCtrl)
    (hreg : mapGet tc.TrafficCtrl (GenerateKey service productid acckey) = some c)
    (hstore : Redis.IncrBy (rediskey (GenerateKey service productid acckey) day hour)
      c.CurrentCnt = some T)
    (hfit : IsInt64 (T - c.LastTotalCnt)) (hexc : T - c.LastTotalCnt > c.AppliedQps) :
    ∃ tc', writeCount tc Redis day hour = some tc' ∧
      (∃ c', mapGet tc'.TrafficCtrl (GenerateKey service productid acckey) = some c' ∧
        c'.TrafficLimit = true) ∧
      ∀ ids : List (String × String × String),
        ∃ c'', mapGet (IsTrafficCtrlSeq ids tc').TrafficCtrl
            (GenerateKey service productid acckey) = some c'' ∧
          c''.TrafficLimit = true ∧ c''.Bucket = c.Bucket ∧ c''.Toplimit = c.Toplimit ∧
          ((IsTrafficCtrl (IsTrafficCtrlSeq ids tc') service productid acckey).1 = (true, 1) ↔
            (c''.CurrentCnt > c.Bucket ∨ c''.CurrentCnt > c.Toplimit)) ∧
          (c.Bucket ≤ c.Toplimit →
            ((IsTrafficCtrl (IsTrafficCtrlSeq ids tc') service productid acckey).1 = (true, 1) ↔
              c''.CurrentCnt > c.Bucket)) := by
  obtain ⟨tc', hrun, _, _, hget⟩ := writeCount_spec tc Redis day hour hnd
  have hc' : mapGet tc'.TrafficCtrl (GenerateKey service productid acckey) =
      some (tickCounter Redis day hour (GenerateKey service productid acckey) c) := by
    rw [hget _, hreg]; rfl
  have htick : tickCounter Redis day hour (GenerateKey service productid acckey) c =
      { c with CurrentCnt := 0, LastTotalCnt := T, TrafficLimit := true } := by
    simp [tickCounter, hstore, wrap64_of_IsInt64 _ hfit, hexc]
  rw [htick] at hc'
  refine ⟨tc', hrun, ⟨_, hc', rfl⟩, ?_⟩
  intro ids
  have hzero : IsInt64 (0 : Int) := by decide
  have hseq := IsTrafficCtrlSeq_get (GenerateKey service productid acckey) ids tc' _ hc' hzero
  refine ⟨_, hseq, rfl, rfl, rfl, ?_, ?_⟩
  · rw [IsTrafficCtrl_of_get _ service productid acckey _ hseq]
    simp only [verdict]
    split
    · rename_i h; simpa using h
    · rename_i h; simpa using h
  · intro hle
    rw [IsTrafficCtrl_of_get _ service productid acckey _ hseq]
    simp only [verdict]
    split
    · rename_i h
      simp only [true_and] at h
      simp only [true_iff]
      omega
    · rename_i h
      simp only [true_and] at h
      constructor
      · intro hf; simp at hf
      · intro hb; exact absurd (Or.inl hb) h

/-! ## Keys -/

theorem toNat_ofNat_small (m : Nat) (h : m < 55296) : (Char.ofNat m).toNat = m := by
  unfold Char.ofNat
  have hv : m.isValidChar := Or.inl h
  simp only [hv, dite_true]
  unfold Char.ofNatAux Char.toNat
  simp [UInt32.toNat]

theorem toUpper_ascii (c : Char) (h : c.toNat < 128) : (Char.toUpper c).toNat < 128 := by
  by_cases hr : c.toNat ≥ 97 ∧ c.toNat ≤ 122
  · have hu : Char.toUpper c = Char.ofNat (c.toNat - 32) := by
      simp only [Char.toUpper, hr, and_self, if_true]
    rw [hu, toNat_ofNat_small _ (by omega)]
    omega
  · have hu : Char.toUpper c = c := by
      simp only [Char.toUpper, hr, if_false]
    rw [hu]
    exact h

theorem toUpper_idem (c : Char) : Char.toUpper (Char.toUpper c) = Char.toUpper c := by
  by_cases hr : c.toNat ≥ 97 ∧ c.toNat ≤ 122
  · have hu : Char.toUpper c = Char.ofNat (c.toNat - 32) := by
      simp only [Char.toUpper, hr, and_self, if_true]
    have hn : (Char.ofNat (c.toNat - 32)).toNat = c.toNat - 32 :=
      toNat_ofNat_small _ (by omega)
    have hr2 : ¬ ((Char.ofNat (c.toNat - 32)).toNat ≥ 97 ∧
        (Char.ofNat (c.toNat - 32)).toNat ≤ 122) := by
      rw [hn]; omega
    have hu2 : Char.toUpper (Char.ofNat (c.toNat - 32)) = Char.ofNat (c.toNat - 32) := by
      simp only [Char.toUpper, hr2, if_false]
    rw [hu, hu2]
  · have hu : Char.toUpper c = c := by
      simp only [Char.toUpper, hr, if_false]
    rw [hu, hu]

theorem toUpper_eq_underscore (c : Char) (h : Char.toUpper c = '_') : c = '_' := by
  by_cases hr : c.toNat ≥ 97 ∧ c.toNat ≤ 122
  · have hu : Char.toUpper c = Char.ofNat (c.toNat - 32) := by
      simp only [Char.toUpper, hr, and_self, if_true]
    have hn : (Char.ofNat (c.toNat - 32)).toNat = c.toNat - 32 :=
      toNat_ofNat_small _ (by omega)
    rw [hu] at h
    rw [h] at hn
    have h95 : ('_' : Char).toNat = 95 := by decide
    omega
  · have hu : Char.toUpper c = c := by
      simp only [Char.toUpper, hr, if_false]
    rw [hu] at h
    exact h

/-- Upper-casing twice is upper-casing once, when the table's upper-case forms are their own
upper-case forms. -/
theorem upperRune_idem [RuneTable]
    (hidem : ∀ c : Char, 128 ≤ c.toNat → upperRune (RuneTable.upper c) = RuneTable.upper c)
    (c : Char) : upperRune (upperRune c) = upperRune c := by
  by_cases h : c.toNat < 128
  · have h1 : upperRune c = Char.toUpper c := by simp only [upperRune, h, if_true]
    have h2 := toUpper_ascii c h
    rw [h1]
    simp only [upperRune, h2, if_true]
    exact toUpper_idem c
  · have h1 : upperRune c = RuneTable.upper c := by simp only [upperRune, h, if_false]
    rw [h1]
    exact hidem c (by omega)

/-- Only `_` is upper-cased to `_`, when the table maps no rune to `_`. -/
theorem upperRune_eq_underscore [RuneTable]
    (hsep : ∀ c : Char, 128 ≤ c.toNat → RuneTable.upper c ≠ '_')
    (c : Char) (h : upperRune c = '_') : c = '_' := by
  by_cases hc : c.toNat < 128
  · have h1 : upperRune c = Char.toUpper c := by simp only [upperRune, hc, if_true]
    rw [h1] at h
    exact toUpper_eq_underscore c h
  · have h1 : upperRune c = RuneTable.upper c := by simp only [upperRune, hc, if_false]
    rw [h1] at h
    exact absurd h (hsep c (by omega))

theorem upperRune_of_CaseVariant [RuneTable]
    (hidem : ∀ c : Char, 128 ≤ c.toNat → upperRune (RuneTable.upper c) = RuneTable.upper c)
    (c d : Char) (h : CaseVariant c d) : upperRune c = upperRune d := by
  rcases h with h | h | h
  · rw [h]
  · rw [h, upperRune_idem hidem]
  · rw [h, upperRune_idem hidem]

theorem map_upperRune_of_SameUpToCaseRunes [RuneTable]
    (hidem : ∀ c : Char, 128 ≤ c.toNat → upperRune (RuneTable.upper c) = RuneTable.upper c) :
    ∀ l₁ l₂ : List Char, SameUpToCaseRunes l₁ l₂ = true →
      l₁.map upperRune = l₂.map upperRune := by
  intro l₁
  induction l₁ with
  | nil =>
    intro l₂ h
    cases l₂ with
    | nil => rfl
    | cons d ds => simp [SameUpToCaseRunes] at h
  | cons c cs ih =>
    intro l₂ h
    cases l₂ with
    | nil => simp [SameUpToCaseRunes] at h
    | cons d ds =>
      simp only [SameUpToCaseRunes, Bool.and_eq_true, decide_eq_true_eq] at h
      simp only [List.map_cons, upperRune_of_CaseVariant hidem c d h.1, ih ds h.2]

theorem ToUpper_of_SameUpToCase [RuneTable]
    (hidem : ∀ c : Char, 128 ≤ c.toNat → upperRune (RuneTable.upper c) = RuneTable.upper c)
    (s t : String) (h : SameUpToCase s t) : ToUpper s = ToUpper t := by
  unfold ToUpper
  rw [map_upperRune_of_SameUpToCaseRunes hidem s.data t.data h]

theorem underscore_not_mem_ToUpper [RuneTable]
    (hsep : ∀ c : Char, 128 ≤ c.toNat → RuneTable.upper c ≠ '_')
    (s : String) (h : '_' ∉ s.data) : '_' ∉ (ToUpper s).data := by
  intro hmem
  simp only [ToUpper, List.mem_map] at hmem
  obtain ⟨c, hc, hcu⟩ := hmem
  rw [upperRune_eq_underscore hsep c hcu] at hc
  exact h hc

/-- On a service made of ASCII runes the upper-cased form is the same for every table. -/
theorem ToUpper_table_irrelevant (T₁ T₂ : RuneTable) (s : String)
    (hascii : ∀ c ∈ s.data, c.toNat < 128) : @ToUpper T₁ s = @ToUpper T₂ s := by
  unfold ToUpper
  congr 1
  apply List.map_congr_left
  intro c hc
  simp only [upperRune, hascii c hc, if_true]

/-- On a service made of ASCII runes the key is the same for every table. -/
theorem GenerateKey_table_irrelevant (T₁ T₂ : RuneTable) (service productid acckey : String)
    (hascii : ∀ c ∈ service.data, c.toNat < 128) :
    @GenerateKey T₁ service productid acckey = @GenerateKey T₂ service productid acckey := by
  unfold GenerateKey
  rw [ToUpper_table_irrelevant T₁ T₂ service hascii]

/-- The upper-case forms of `identityRuneTable` are their own upper-case forms, and none is
`_`. -/
theorem identityRuneTable_laws :
    (∀ c : Char, 128 ≤ c.toNat →
      upperRune (identityRuneTable.upper c) = identityRuneTable.upper c) ∧
    (∀ c : Char, 128 ≤ c.toNat → identityRuneTable.upper c ≠ '_') := by
  constructor
  · intro c hc
    have h : ¬ c.toNat < 128 := by omega
    show upperRune c = c
    simp only [upperRune, h, if_false]
    rfl
  · intro c hc h
    have h' : c = '_' := h
    rw [h'] at hc
    exact absurd hc (by decide)

theorem GenerateKey_data [RuneTable] (service productid acckey : String) :
    (GenerateKey service productid acckey).data =
      (ToUpper service).data ++ '_' :: (productid.data ++ '_' :: acckey.data) := by
  simp [GenerateKey, String.data_append]

theorem append_sep_inj {α : Type} (sep : α) :
    ∀ (x₁ x₂ z₁ z₂ : List α), sep ∉ x₁ → sep ∉ x₂ →
      x₁ ++ sep :: z₁ = x₂ ++ sep :: z₂ → x₁ = x₂ ∧ z₁ = z₂ := by
  intro x₁
  induction x₁ with
  | nil =>
    intro x₂ z₁ z₂ _ h2 heq
    cases x₂ with
    | nil => simp at heq; exact ⟨rfl, heq⟩
    | cons y ys =>
      simp only [List.nil_append, List.cons_append, List.cons.injEq] at heq
      exact absurd (heq.1 ▸ List.mem_cons_self _ _) h2
  | cons y ys ih =>
    intro x₂ z₁ z₂ h1 h2 heq
    cases x₂ with
    | nil =>
      simp only [List.nil_append, List.cons_append, List.cons.injEq] at heq
      exact absurd (heq.1 ▸ List.mem_cons_self _ _) h1
    | cons w ws =>
      simp only [List.cons_append, List.cons.injEq] at heq
      have h1' : sep ∉ ys := fun hm => h1 (List.mem_cons_of_mem _ hm)
      have h2' : sep ∉ ws := fun hm => h2 (List.mem_cons_of_mem _ hm)
      obtain ⟨e1, e2⟩ := ih ws z₁ z₂ h1' h2' heq.2
      exact ⟨by rw [heq.1, e1], e2⟩

theorem GenerateKey_inj_of_no_underscore [RuneTable]
    (hsep : ∀ c : Char, 128 ≤ c.toNat → RuneTable.upper c ≠ '_')
    (s s' p p' a a' : String)
    (hs : '_' ∉ s.data) (hp : '_' ∉ p.data) (hs' : '_' ∉ s'.data) (hp' : '_' ∉ p'.data)
    (heq : GenerateKey s p a = GenerateKey s' p' a') :
    ToUpper s = ToUpper s' ∧ p = p' ∧ a = a' := by
  have hd := congrArg String.data heq
  rw [GenerateKey_data, GenerateKey_data] at hd
  obtain ⟨e1, e2⟩ := append_sep_inj '_' _ _ _ _ (underscore_not_mem_ToUpper hsep s hs)
    (underscore_not_mem_ToUpper hsep s' hs') hd
  obtain ⟨e3, e4⟩ := append_sep_inj '_' _ _ _ _ hp hp' e2
  exact ⟨String.ext e1, String.ext e3, String.ext e4⟩

theorem GenerateKey_productid_inj [RuneTable] (s p p' a : String)
    (heq : GenerateKey s p a = GenerateKey s p' a) : p = p' := by
  have hd := congrArg String.data heq
  rw [GenerateKey_data, GenerateKey_data] at hd
  have h1 := List.append_cancel_left hd
  simp only [List.cons.injEq, true_and] at h1
  have h2 : p.data ++ ('_' :: a.data) = p'.data ++ ('_' :: a.data) := h1
  exact String.ext (List.append_cancel_right h2)

theorem GenerateKey_acckey_inj [RuneTable] (s p a a' : String)
    (heq : GenerateKey s p a = GenerateKey s p a') : a = a' := by
  have hd := congrArg String.data heq
  rw [GenerateKey_data, GenerateKey_data] at hd
  have h1 := List.append_cancel_left hd
  simp only [List.cons.injEq, true_and] at h1
  have h2 := List.append_cancel_left h1
  simp only [List.cons.injEq, true_and] at h2
  exact String.ext h2

theorem verdict_code (c : TrafficCounter) (x : Int) : (verdict c x).2 ≠ 2 := by
  unfold verdict
  split <;> decide

theorem RegisterCaller_period [RuneTable] (tc : TrafficController) (service productid acckey : String)
    (appliedqps bucket : Int) :
    (RegisterCaller tc service productid acckey appliedqps bucket).1.Period = tc.Period := by
  by_cases hv : service = "" ∨ productid = "" ∨ acckey = "" ∨ appliedqps < 0 ∨ bucket < 0
  · simp only [RegisterCaller, hv, if_true]
  · rw [RegisterCaller_of_valid tc _ _ _ _ _ hv]

/-- Witness of the amended C12: quota 10, bucket 5, old total 8, new total 40. -/
theorem writeCount_then_checks_threshold_witness :
    (KeysNodup (⟨[("A_p_k", ⟨10, 5, 15, 8, 3, false⟩)], 1000⟩ : TrafficController).TrafficCtrl ∧
      mapGet (⟨[("A_p_k", ⟨10, 5, 15, 8, 3, false⟩)], 1000⟩ : TrafficController).TrafficCtrl
        (GenerateKey "a" "p" "k") = some ⟨10, 5, 15, 8, 3, false⟩ ∧
      (⟨fun _ _ => some 40, fun _ _ => false⟩ : Store).IncrBy
        (rediskey (GenerateKey "a" "p" "k") 4 11) 3 = some 40 ∧
      IsInt64 (40 - 8) ∧ (40 : Int) - 8 > 10) ∧
    ∃ tc', writeCount ⟨[("A_p_k", ⟨10, 5, 15, 8, 3, false⟩)], 1000⟩
        ⟨fun _ _ => some 40, fun _ _ => false⟩ 4 11 = some tc' ∧
      ∃ c', mapGet tc'.TrafficCtrl (GenerateKey "a" "p" "k") = some c' ∧
        c'.TrafficLimit = true := by
  refine ⟨by decide, ?_⟩
  obtain ⟨tc', h1, h2, _⟩ :=
    writeCount_then_checks_threshold ⟨[("A_p_k", ⟨10, 5, 15, 8, 3, false⟩)], 1000⟩
      ⟨fun _ _ => some 40, fun _ _ => false⟩ 4 11 "a" "p" "k" ⟨10, 5, 15, 8, 3, false⟩ 40
      (by decide) (by decide) (by decide) (by decide) (by decide)
  exact ⟨tc', h1, h2⟩

/-- Under a case table that upper-cases the long s (U+017F) to `S`, as the table of Go does,
the services `ſ` and `s` have the same key. -/
theorem GenerateKey_long_s [RuneTable] (h : RuneTable.upper (Char.ofNat 383) = 'S')
    (p a : String) :
    GenerateKey (String.mk [Char.ofNat 383]) p a = GenerateKey "s" p a := by
  have hbig : ¬ (Char.ofNat 383).toNat < 128 := by decide
  have hsmall : ('s' : Char).toNat < 128 := by decide
  have hup : upperRune (Char.ofNat 383) = upperRune 's' := by
    simp only [upperRune, hbig, hsmall, if_true, if_false, h]
    decide
  simp only [GenerateKey, ToUpper, List.map, hup]

theorem ToUpper_of_SameUpToCase_chain [RuneTable]
    (hidem : ∀ c : Char, 128 ≤ c.toNat → upperRune (RuneTable.upper c) = RuneTable.upper c)
    (s t : String) (h : Relation.ReflTransGen SameUpToCase s t) : ToUpper s = ToUpper t := by
  induction h with
  | refl => rfl
  | tail _ hstep ih => rw [ih]; exact ToUpper_of_SameUpToCase hidem _ _ hstep

/-- C13: the key is the service upper-cased rune by rune, `_`, the product id, `_` and the
access key; service names that differ only in letter case, rune by rune one the upper-case
form of the other, or linked by a chain of such names, give the same key (for a case table
whose upper-case forms are their own upper-case forms), while a different product id or
access key gives a different key; and a caller registered as `rgeo` is found by an admission
check for `RgEo`, which does not return code 2. -/
theorem GenerateKey_service_case [RuneTable] (tc : TrafficController) (s t p p' a a' : String)
    (q b : Int)
    (hidem : ∀ c : Char, 128 ≤ c.toNat → upperRune (RuneTable.upper c) = RuneTable.upper c)
    (hok : (RegisterCaller tc "rgeo" p a q b).2 = none) :
    (GenerateKey s p a).data = s.data.map upperRune ++ '_' :: (p.data ++ '_' :: a.data) ∧
    (SameUpToCase s t → GenerateKey s p a = GenerateKey t p a) ∧
    (Relation.ReflTransGen SameUpToCase s t → GenerateKey s p a = GenerateKey t p a) ∧
    (p ≠ p' → GenerateKey s p a ≠ GenerateKey s p' a) ∧
    (a ≠ a' → GenerateKey s p a ≠ GenerateKey s p a') ∧
    (IsTrafficCtrl (RegisterCaller tc "rgeo" p a q b).1 "RgEo" p a).1.2 ≠ 2 := by
  refine ⟨GenerateKey_data s p a, ?_, ?_, ?_, ?_, ?_⟩
  · intro h
    simp only [GenerateKey, ToUpper_of_SameUpToCase hidem s t h]
  · intro h
    simp only [GenerateKey, ToUpper_of_SameUpToCase_chain hidem s t h]
  · intro hne heq
    exact hne (GenerateKey_productid_inj s p p' a heq)
  · intro hne heq
    exact hne (GenerateKey_acckey_inj s p a a' heq)
  · have hget := RegisterCaller_get tc "rgeo" p a q b hok
    have hcase : SameUpToCase "RgEo" "rgeo" := by
      simp [SameUpToCase, SameUpToCaseRunes, CaseVariant, upperRune]
    have hkey : GenerateKey "RgEo" p a = GenerateKey "rgeo" p a := by
      simp only [GenerateKey, ToUpper_of_SameUpToCase hidem "RgEo" "rgeo" hcase]
    rw [← hkey] at hget
    rw [IsTrafficCtrl_of_get _ "RgEo" p a _ hget]
    exact verdict_code _ _

/-- Witness of C13: the registration of the repository's test, checked as `RgEo`. -/
theorem GenerateKey_service_case_witness :
    ((∀ c : Char, 128 ≤ c.toNat →
        upperRune (identityRuneTable.upper c) = identityRuneTable.upper c) ∧
      (RegisterCaller ⟨[], 2000⟩ "rgeo" "257" "TD5Y1" 10 5).2 = none ∧
      SameUpToCase "rgeo" "RgEo") ∧
    GenerateKey "rgeo" "257" "TD5Y1" = GenerateKey "RgEo" "257" "TD5Y1" ∧
    (IsTrafficCtrl (RegisterCaller ⟨[], 2000⟩ "rgeo" "257" "TD5Y1" 10 5).1
      "RgEo" "257" "TD5Y1").1.2 ≠ 2 :=
  ⟨⟨identityRuneTable_laws.1, by decide, by decide⟩,
   (GenerateKey_service_case ⟨[], 2000⟩ "rgeo" "RgEo" "257" "258" "TD5Y1" "X" 10 5
      identityRuneTable_laws.1 (by decide)).2.1 (by decide),
   (GenerateKey_service_case ⟨[], 2000⟩ "rgeo" "RgEo" "257" "258" "TD5Y1" "X" 10 5
      identityRuneTable_laws.1 (by decide)).2.2.2.2.2⟩

/-- C14: a successful `RegisterCaller` for a key already in the registry replaces the entry by
a fresh counter: tally 0, last total 0, flag cleared, and quota, bucket and ceiling computed
from the new inputs and the period alone, whatever the registry held; the key list and
every other key's counter are unchanged. -/
theorem RegisterCaller_overwrites [RuneTable] (tc : TrafficController) (service productid acckey : String)
    (appliedqps bucket : Int) (cOld : TrafficCounter)
    (hok : (RegisterCaller tc service productid acckey appliedqps bucket).2 = none)
    (hreg : mapGet tc.TrafficCtrl (GenerateKey service productid acckey) = some cOld) :
    ∃ c, mapGet (RegisterCaller tc service productid acckey appliedqps bucket).1.TrafficCtrl
        (GenerateKey service productid acckey) = some c ∧
      c.CurrentCnt = 0 ∧ c.LastTotalCnt = 0 ∧ c.TrafficLimit = false ∧
      (∀ reg : List (String × TrafficCounter),
        mapGet (RegisterCaller ⟨reg, tc.Period⟩ service productid acckey
          appliedqps bucket).1.TrafficCtrl (GenerateKey service productid acckey) = some c) ∧
      mapKeys (RegisterCaller tc service productid acckey appliedqps bucket).1.TrafficCtrl =
        mapKeys tc.TrafficCtrl ∧
      (∀ k, k ≠ GenerateKey service productid acckey →
        mapGet (RegisterCaller tc service productid acckey appliedqps bucket).1.TrafficCtrl k =
          mapGet tc.TrafficCtrl k) := by
  have hv := RegisterCaller_valid_of_ok tc _ _ _ _ _ hok
  refine ⟨freshCounter appliedqps bucket tc.Period, RegisterCaller_get tc _ _ _ _ _ hok,
    rfl, rfl, rfl, ?_, ?_, ?_⟩
  · intro reg
    rw [RegisterCaller_of_valid ⟨reg, tc.Period⟩ _ _ _ _ _ hv]
    exact mapGet_mapSet_self _ _ _
  · rw [RegisterCaller_of_valid tc _ _ _ _ _ hv]
    exact mapKeys_mapSet_of_get _ _ cOld _ hreg
  · intro k hk
    rw [RegisterCaller_of_valid tc _ _ _ _ _ hv]
    exact mapGet_mapSet_ne _ _ _ _ hk

/-- Witness of C14: a throttled caller with history is registered again next to another. -/
theorem RegisterCaller_overwrites_witness :
    ((RegisterCaller ⟨[("A_p_k", ⟨10, 5, 15, 40, 7, true⟩), ("B_p_k", ⟨20, 5, 30, 7, 2, true⟩)],
        1000⟩ "a" "p" "k" 4 2).2 = none ∧
      mapGet (⟨[("A_p_k", ⟨10, 5, 15, 40, 7, true⟩), ("B_p_k", ⟨20, 5, 30, 7, 2, true⟩)],
        1000⟩ : TrafficController).TrafficCtrl (GenerateKey "a" "p" "k") =
        some ⟨10, 5, 15, 40, 7, true⟩) ∧
    (RegisterCaller ⟨[("A_p_k", ⟨10, 5, 15, 40, 7, true⟩), ("B_p_k", ⟨20, 5, 30, 7, 2, true⟩)],
        1000⟩ "a" "p" "k" 4 2).1.TrafficCtrl =
      [("A_p_k", ⟨4, 2, 6, 0, 0, false⟩), ("B_p_k", ⟨20, 5, 30, 7, 2, true⟩)] ∧
    mapKeys (RegisterCaller ⟨[("A_p_k", ⟨10, 5, 15, 40, 7, true⟩),
        ("B_p_k", ⟨20, 5, 30, 7, 2, true⟩)], 1000⟩ "a" "p" "k" 4 2).1.TrafficCtrl =
      mapKeys (⟨[("A_p_k", ⟨10, 5, 15, 40, 7, true⟩), ("B_p_k", ⟨20, 5, 30, 7, 2, true⟩)],
        1000⟩ : TrafficController).TrafficCtrl := by
  refine ⟨by decide, by decide, ?_⟩
  obtain ⟨_, _, _, _, _, _, hkeys, _⟩ :=
    RegisterCaller_overwrites
      ⟨[("A_p_k", ⟨10, 5, 15, 40, 7, true⟩), ("B_p_k", ⟨20, 5, 30, 7, 2, true⟩)], 1000⟩
      "a" "p" "k" 4 2 ⟨10, 5, 15, 40, 7, true⟩ (by decide) (by decide)
  exact hkeys

/-- C19: `GenerateKey` is not injective on identity triples: product id `b_c` with access key
`d` and product id `b` with access key `c_d` differ in both fields and have the same key
under every service, so the second registration under that service replaces the counter of
the first without adding a key, and admission checks for either identity act on that one
counter.  When neither the services nor the product ids contain `_` (and the case table maps
no rune to `_`), equal keys force equal upper-cased services, equal product ids and equal
access keys. -/
theorem GenerateKey_collision [RuneTable] (tc : TrafficController) (s s' p p' a a' : String)
    (q b q' b' : Int)
    (hsep : ∀ c : Char, 128 ≤ c.toNat → RuneTable.upper c ≠ '_')
    (hok₁ : (RegisterCaller tc s "b_c" "d" q b).2 = none)
    (hok₂ : (RegisterCaller (RegisterCaller tc s "b_c" "d" q b).1 s "b" "c_d" q' b').2 = none) :
    (("b_c" : String) ≠ "b" ∧ ("d" : String) ≠ "c_d" ∧
      GenerateKey s "b_c" "d" = GenerateKey s "b" "c_d") ∧
    mapGet (RegisterCaller (RegisterCaller tc s "b_c" "d" q b).1 s "b" "c_d"
        q' b').1.TrafficCtrl (GenerateKey s "b_c" "d") = some (freshCounter q' b' tc.Period) ∧
    mapKeys (RegisterCaller (RegisterCaller tc s "b_c" "d" q b).1 s "b" "c_d"
        q' b').1.TrafficCtrl = mapKeys (RegisterCaller tc s "b_c" "d" q b).1.TrafficCtrl ∧
    (∀ tc₂ : TrafficController, IsTrafficCtrl tc₂ s "b_c" "d" = IsTrafficCtrl tc₂ s "b" "c_d") ∧
    ('_' ∉ s.data → '_' ∉ p.data → '_' ∉ s'.data → '_' ∉ p'.data →
      GenerateKey s p a = GenerateKey s' p' a' → ToUpper s = ToUpper s' ∧ p = p' ∧ a = a') := by
  have hkey : GenerateKey s "b_c" "d" = GenerateKey s "b" "c_d" := by
    apply String.ext
    rw [GenerateKey_data, GenerateKey_data]
    simp
  have hget₁ := RegisterCaller_get tc s "b_c" "d" q b hok₁
  have hget₂ := RegisterCaller_get _ s "b" "c_d" q' b' hok₂
  rw [RegisterCaller_period] at hget₂
  refine ⟨⟨by decide, by decide, hkey⟩, ?_, ?_, ?_, ?_⟩
  · rw [hkey]; exact hget₂
  · have hv := RegisterCaller_valid_of_ok _ _ _ _ _ _ hok₂
    rw [RegisterCaller_of_valid _ _ _ _ _ _ hv]
    rw [hkey] at hget₁
    exact mapKeys_mapSet_of_get _ _ _ _ hget₁
  · intro tc₂
    simp only [IsTrafficCtrl, hkey]
  · intro hs hp hs' hp' heq
    exact GenerateKey_inj_of_no_underscore hsep s s' p p' a a' hs hp hs' hp' heq

/-- Witness of C19 on an empty registry. -/
theorem GenerateKey_collision_witness :
    ((∀ c : Char, 128 ≤ c.toNat → identityRuneTable.upper c ≠ '_') ∧
      (RegisterCaller ⟨[], 1000⟩ "a" "b_c" "d" 10 5).2 = none ∧
      (RegisterCaller (RegisterCaller ⟨[], 1000⟩ "a" "b_c" "d" 10 5).1
        "a" "b" "c_d" 4 2).2 = none) ∧
    GenerateKey "a" "b_c" "d" = GenerateKey "a" "b" "c_d" ∧
    mapGet (RegisterCaller (RegisterCaller ⟨[], 1000⟩ "a" "b_c" "d" 10 5).1
        "a" "b" "c_d" 4 2).1.TrafficCtrl (GenerateKey "a" "b_c" "d") =
      some (freshCounter 4 2 1000) :=
  ⟨⟨identityRuneTable_laws.2, by decide, by decide⟩,
   (GenerateKey_collision ⟨[], 1000⟩ "a" "a" "p" "p" "k" "k" 10 5 4 2
      identityRuneTable_laws.2 (by decide) (by decide)).1.2.2,
   (GenerateKey_collision ⟨[], 1000⟩ "a" "a" "p" "p" "k" "k" 10 5 4 2
      identityRuneTable_laws.2 (by decide) (by decide)).2.1⟩

/-! ## Monotone scaling -/

theorem scaledQuotaSpec_nonneg (qps P : Int) : 0 ≤ scaledQuotaSpec qps P := by
  unfold scaledQuotaSpec
  split
  · exact le_refl 0
  · exact le_trans (by decide) (le_max_left 1 _)

theorem scaledQuotaSpec_mono_qps (q₁ q₂ P : Int) (h0 : 0 ≤ q₁) (hle : q₁ ≤ q₂) (hP : 0 < P) :
    scaledQuotaSpec q₁ P ≤ scaledQuotaSpec q₂ P := by
  by_cases h1 : q₁ = 0
  · have hz : scaledQuotaSpec q₁ P = 0 := by simp [scaledQuotaSpec, h1]
    rw [hz]; exact scaledQuotaSpec_nonneg q₂ P
  · have h2 : q₂ ≠ 0 := by omega
    simp only [scaledQuotaSpec, h1, h2, if_false]
    have hmul : q₁ * P ≤ q₂ * P := Int.mul_le_mul_of_nonneg_right hle (le_of_lt hP)
    exact max_le_max (le_refl 1) (Int.ediv_le_ediv (by decide) hmul)

theorem scaledQuotaSpec_mono_period (q P₁ P₂ : Int) (h0 : 0 ≤ q) (hle : P₁ ≤ P₂) :
    scaledQuotaSpec q P₁ ≤ scaledQuotaSpec q P₂ := by
  by_cases h1 : q = 0
  · simp [scaledQuotaSpec, h1]
  · simp only [scaledQuotaSpec, h1, if_false]
    have hmul : q * P₁ ≤ q * P₂ := Int.mul_le_mul_of_nonneg_left hle h0
    exact max_le_max (le_refl 1) (Int.ediv_le_ediv (by decide) hmul)

theorem freshCounter_quota (appliedqps bucket P : Int) (hq : 0 ≤ appliedqps)
    (hfit : IsInt64 (appliedqps * P)) :
    (freshCounter appliedqps bucket P).AppliedQps = scaledQuotaSpec appliedqps P :=
  scaled_eq_spec appliedqps P hq hfit

theorem freshCounter_bucket (appliedqps bucket P : Int) (hb : 0 ≤ bucket)
    (hfit : IsInt64 (bucket * P)) :
    (freshCounter appliedqps bucket P).Bucket = scaledQuotaSpec bucket P :=
  scaled_eq_spec bucket P hb hfit

theorem freshCounter_zero_quota (bucket P : Int) :
    (freshCounter 0 bucket P).AppliedQps = 0 ∧ (freshCounter 0 bucket P).Toplimit = 0 := by
  have h : (freshCounter 0 bucket P).AppliedQps = 0 := by simp [freshCounter]
  refine ⟨h, ?_⟩
  show int64OfHalves (mulOneAndHalf (float64OfInt64 (freshCounter 0 bucket P).AppliedQps)) = 0
  rw [h]
  decide

theorem freshCounter_zero_bucket (appliedqps P : Int) :
    (freshCounter appliedqps 0 P).Bucket = 0 := by
  simp [freshCounter]

/-- C16 as stated fails on overflow.  With period 1000 the inputs `1000 ≤ 9223372036854776`
are stored as `1000` and `1`; and with input 10 the periods `1000 ≤ 4611686018427387904` give
the stored quotas `10` and `1`. -/
theorem RegisterCaller_scaling_not_monotone :
    (mapGet (RegisterCaller ⟨[], 1000⟩ "a" "p" "k" 1000 0).1.TrafficCtrl
        (GenerateKey "a" "p" "k") = some ⟨1000, 0, 1500, 0, 0, false⟩ ∧
      mapGet (RegisterCaller ⟨[], 1000⟩ "a" "p" "k" 9223372036854776 0).1.TrafficCtrl
        (GenerateKey "a" "p" "k") = some ⟨1, 0, 1, 0, 0, false⟩ ∧
      (1000 : Int) ≤ 9223372036854776) ∧
    (mapGet (RegisterCaller ⟨[], 1000⟩ "a" "p" "k" 10 0).1.TrafficCtrl
        (GenerateKey "a" "p" "k") = some ⟨10, 0, 15, 0, 0, false⟩ ∧
      mapGet (RegisterCaller ⟨[], 4611686018427387904⟩ "a" "p" "k" 10 0).1.TrafficCtrl
        (GenerateKey "a" "p" "k") = some ⟨1, 0, 1, 0, 0, false⟩ ∧
      (1000 : Int) ≤ 4611686018427387904) := by
  decide

/-- C16, amended: for two successful registrations whose products of input and period are
representable as `int64`, the stored quota is monotone in the input for a fixed period
`P > 0` (`AppliedQps` in `appliedqps`, `Bucket` in `bucket`) and monotone in the period for a
fixed input; and an input of 0 is stored as 0 for every period, with no proviso. -/
theorem RegisterCaller_scaling_monotone [RuneTable] (reg₁ reg₂ : List (String × TrafficCounter))
    (P₁ P₂ : Int) (service productid acckey : String) (q₁ b₁ q₂ b₂ : Int)
    (hok₁ : (RegisterCaller ⟨reg₁, P₁⟩ service productid acckey q₁ b₁).2 = none)
    (hok₂ : (RegisterCaller ⟨reg₂, P₂⟩ service productid acckey q₂ b₂).2 = none) :
    ∃ c₁ c₂,
      mapGet (RegisterCaller ⟨reg₁, P₁⟩ service productid acckey q₁ b₁).1.TrafficCtrl
        (GenerateKey service productid acckey) = some c₁ ∧
      mapGet (RegisterCaller ⟨reg₂, P₂⟩ service productid acckey q₂ b₂).1.TrafficCtrl
        (GenerateKey service productid acckey) = some c₂ ∧
      (P₁ = P₂ → 0 < P₁ → q₁ ≤ q₂ → IsInt64 (q₁ * P₁) → IsInt64 (q₂ * P₂) →
        c₁.AppliedQps ≤ c₂.AppliedQps) ∧
      (P₁ = P₂ → 0 < P₁ → b₁ ≤ b₂ → IsInt64 (b₁ * P₁) → IsInt64 (b₂ * P₂) →
        c₁.Bucket ≤ c₂.Bucket) ∧
      (q₁ = q₂ → P₁ ≤ P₂ → IsInt64 (q₁ * P₁) → IsInt64 (q₂ * P₂) →
        c₁.AppliedQps ≤ c₂.AppliedQps) ∧
      (b₁ = b₂ → P₁ ≤ P₂ → IsInt64 (b₁ * P₁) → IsInt64 (b₂ * P₂) →
        c₁.Bucket ≤ c₂.Bucket) ∧
      (q₁ = 0 → c₁.AppliedQps = 0) ∧ (b₁ = 0 → c₁.Bucket = 0) := by
  have hv₁ := RegisterCaller_valid_of_ok _ _ _ _ _ _ hok₁
  have hv₂ := RegisterCaller_valid_of_ok _ _ _ _ _ _ hok₂
  have hq₁ : 0 ≤ q₁ := by omega
  have hb₁ : 0 ≤ b₁ := by omega
  have hq₂ : 0 ≤ q₂ := by omega
  have hb₂ : 0 ≤ b₂ := by omega
  refine ⟨freshCounter q₁ b₁ P₁, freshCounter q₂ b₂ P₂,
    RegisterCaller_get ⟨reg₁, P₁⟩ _ _ _ _ _ hok₁, RegisterCaller_get ⟨reg₂, P₂⟩ _ _ _ _ _ hok₂,
    ?_, ?_, ?_, ?_, ?_, ?_⟩
  · intro hP hpos hle hf₁ hf₂
    rw [freshCounter_quota q₁ b₁ P₁ hq₁ hf₁, freshCounter_quota q₂ b₂ P₂ hq₂ hf₂, ← hP]
    exact scaledQuotaSpec_mono_qps q₁ q₂ P₁ hq₁ hle hpos
  · intro hP hpos hle hf₁ hf₂
    rw [freshCounter_bucket q₁ b₁ P₁ hb₁ hf₁, freshCounter_bucket q₂ b₂ P₂ hb₂ hf₂, ← hP]
    exact scaledQuotaSpec_mono_qps b₁ b₂ P₁ hb₁ hle hpos
  · intro hq hle hf₁ hf₂
    rw [freshCounter_quota q₁ b₁ P₁ hq₁ hf₁, freshCounter_quota q₂ b₂ P₂ hq₂ hf₂, ← hq]
    exact scaledQuotaSpec_mono_period q₁ P₁ P₂ hq₁ hle
  · intro hb hle hf₁ hf₂
    rw [freshCounter_bucket q₁ b₁ P₁ hb₁ hf₁, freshCounter_bucket q₂ b₂ P₂ hb₂ hf₂, ← hb]
    exact scaledQuotaSpec_mono_period b₁ P₁ P₂ hb₁ hle
  · intro h0; subst h0; exact (freshCounter_zero_quota b₁ P₁).1
  · intro h0; subst h0; exact freshCounter_zero_bucket q₁ P₁

/-- Witness of the amended C16: the two registrations of the repository's test, period 2000. -/
theorem RegisterCaller_scaling_monotone_witness :
    ((RegisterCaller ⟨[], 2000⟩ "rgeo" "257" "k" 10 5).2 = none ∧
      (RegisterCaller ⟨[], 2000⟩ "rgeo" "257" "k" 20 5).2 = none ∧
      (0 : Int) < 2000 ∧ (10 : Int) ≤ 20 ∧ IsInt64 (10 * 2000) ∧ IsInt64 (20 * 2000)) ∧
    ∃ c₁ c₂,
      mapGet (RegisterCaller ⟨[], 2000⟩ "rgeo" "257" "k" 10 5).1.TrafficCtrl
        (GenerateKey "rgeo" "257" "k") = some c₁ ∧
      mapGet (RegisterCaller ⟨[], 2000⟩ "rgeo" "257" "k" 20 5).1.TrafficCtrl
        (GenerateKey "rgeo" "257" "k") = some c₂ ∧
      c₁.AppliedQps ≤ c₂.AppliedQps := by
  refine ⟨by decide, ?_⟩
  obtain ⟨c₁, c₂, h1, h2, h3, _⟩ :=
    RegisterCaller_scaling_monotone [] [] 2000 2000 "rgeo" "257" "k" 10 5 20 5
      (by decide) (by decide)
  exact ⟨c₁, c₂, h1, h2, h3 rfl (by decide) (by decide) (by decide) (by decide)⟩

/-! ## Runs of admission checks from a zero tally -/

theorem range_map_threshold {α : Type} (m : Nat) (A B : α) (n : Nat) :
    (List.range n).map (fun i => if i < m then B else A) =
      List.replicate (min n m) B ++ List.replicate (n - min n m) A := by
  induction n with
  | zero => simp
  | succ n ih =>
    rw [List.range_succ, List.map_append, ih]
    by_cases h : n < m
    · have h1 : min n m = n := by omega
      have h2 : min (n + 1) m = n + 1 := by omega
      simp only [h1, h2, Nat.sub_self, List.replicate_zero, List.append_nil, List.map_cons,
        List.map_nil, h, if_true]
      rw [List.replicate_succ']
    · have h1 : min n m = m := by omega
      have h2 : min (n + 1) m = m := by omega
      have h3 : n + 1 - m = (n - m) + 1 := by omega
      simp only [h1, h2, h3, List.map_cons, List.map_nil, h, if_false]
      rw [List.replicate_succ', List.append_assoc]

theorem IsTrafficCtrlRepeat_from_zero [RuneTable] (service productid acckey : String) (n : Nat)
    (tc : TrafficController) (c : TrafficCounter)
    (hreg : mapGet tc.TrafficCtrl (GenerateKey service productid acckey) = some c)
    (hzero : c.CurrentCnt = 0) (hn : (n : Int) ≤ MaxInt64 + 1) (θ : Nat)
    (hθ : ∀ i : Nat, verdict c (i : Int) = if i < θ + 1 then (false, 0) else (true, 1)) :
    (IsTrafficCtrlRepeat n tc service productid acckey).1 =
      List.replicate (min n (θ + 1)) (false, 0) ++
        List.replicate (n - min n (θ + 1)) (true, 1) := by
  have hc : IsInt64 c.CurrentCnt := by rw [hzero]; decide
  rw [IsTrafficCtrlRepeat_verdicts_wrap service productid acckey n tc c hreg hc,
    ← range_map_threshold (θ + 1) ((true, 1) : Bool × Int) (false, 0) n]
  apply List.map_congr_left
  intro i hi
  have hlt : i < n := List.mem_range.1 hi
  have hw : wrap64 (c.CurrentCnt + (i : Int)) = (i : Int) := by
    rw [hzero, zero_add]
    apply wrap64_of_IsInt64
    unfold IsInt64 MinInt64
    unfold MaxInt64 at *
    omega
  rw [hw]
  exact hθ i

theorem verdict_unthrottled (c : TrafficCounter) (hlim : c.TrafficLimit = false)
    (hT : 0 ≤ c.Toplimit) (i : Nat) :
    verdict c (i : Int) = if i < c.Toplimit.toNat + 1 then (false, 0) else (true, 1) := by
  unfold verdict
  by_cases h : i < c.Toplimit.toNat + 1
  · have hc : ¬ ((c.TrafficLimit = true ∧ (i : Int) > c.Bucket) ∨ (i : Int) > c.Toplimit) := by
      rw [hlim]
      intro hor
      rcases hor with ⟨hf, _⟩ | hgt
      · cases hf
      · omega
    simp only [hc, h, if_true, if_false]
  · have hc : (c.TrafficLimit = true ∧ (i : Int) > c.Bucket) ∨ (i : Int) > c.Toplimit := by
      right; omega
    simp only [hc, h, if_true, if_false]

theorem verdict_throttled (c : TrafficCounter) (hlim : c.TrafficLimit = true)
    (hT : 0 ≤ min c.Bucket c.Toplimit) (i : Nat) :
    verdict c (i : Int) =
      if i < (min c.Bucket c.Toplimit).toNat + 1 then (false, 0) else (true, 1) := by
  unfold verdict
  by_cases h : i < (min c.Bucket c.Toplimit).toNat + 1
  · have hc : ¬ ((c.TrafficLimit = true ∧ (i : Int) > c.Bucket) ∨ (i : Int) > c.Toplimit) := by
      intro hor
      rcases hor with ⟨_, hgt⟩ | hgt
      · omega
      · omega
    simp only [hc, h, if_true, if_false]
  · have hc : (c.TrafficLimit = true ∧ (i : Int) > c.Bucket) ∨ (i : Int) > c.Toplimit := by
      by_cases hb : (i : Int) > c.Bucket
      · exact Or.inl ⟨hlim, hb⟩
      · right; omega
    simp only [hc, h, if_true, if_false]

/-- C17 as stated fails for runs longer than `2^63`: with `Toplimit = 0`, flag cleared and
tally 0, the call number `2^63 + 1` of a run of `2^63 + 1` reads the wrapped tally
`MinInt64` and returns `(false, 0)`, although only the first `min (n, T + 1) = 1` should. -/
theorem IsTrafficCtrlRepeat_wraps_to_admit :
    mapGet (⟨[("A_p_k", ⟨0, 0, 0, 0, 0, false⟩)], 1000⟩ : TrafficController).TrafficCtrl
        (GenerateKey "a" "p" "k") = some ⟨0, 0, 0, 0, 0, false⟩ ∧
    (IsTrafficCtrlRepeat 9223372036854775809 ⟨[("A_p_k", ⟨0, 0, 0, 0, 0, false⟩)], 1000⟩
        "a" "p" "k").1[9223372036854775808]? = some (false, 0) := by
  have hget : mapGet (⟨[("A_p_k", ⟨0, 0, 0, 0, 0, false⟩)], 1000⟩ :
      TrafficController).TrafficCtrl (GenerateKey "a" "p" "k") =
      some ⟨0, 0, 0, 0, 0, false⟩ := by decide
  refine ⟨hget, ?_⟩
  rw [IsTrafficCtrlRepeat_verdicts_wrap "a" "p" "k" 9223372036854775809 _ _ hget (by decide),
    List.getElem?_map, List.getElem?_range (by decide)]
  decide

/-- C17, amended: for a registered caller with tally 0 and `n ≤ 2^63` consecutive admission
checks with no tick in between: with the flag cleared and `Toplimit = T ≥ 0`, exactly the
first `min (n, T + 1)` calls return `(false, 0)` and all later ones `(true, 1)`; with the
flag set the same holds with `T` replaced by `min (Bucket, Toplimit)`, when that is `≥ 0`. -/
theorem IsTrafficCtrlRepeat_threshold [RuneTable] (tc : TrafficController)
    (service productid acckey : String) (c : TrafficCounter) (n : Nat)
    (hreg : mapGet tc.TrafficCtrl (GenerateKey service productid acckey) = some c)
    (hzero : c.CurrentCnt = 0) (hn : (n : Int) ≤ MaxInt64 + 1) :
    (c.TrafficLimit = false → 0 ≤ c.Toplimit →
      (IsTrafficCtrlRepeat n tc service productid acckey).1 =
        List.replicate (min n (c.Toplimit.toNat + 1)) (false, 0) ++
          List.replicate (n - min n (c.Toplimit.toNat + 1)) (true, 1)) ∧
    (c.TrafficLimit = true → 0 ≤ min c.Bucket c.Toplimit →
      (IsTrafficCtrlRepeat n tc service productid acckey).1 =
        List.replicate (min n ((min c.Bucket c.Toplimit).toNat + 1)) (false, 0) ++
          List.replicate (n - min n ((min c.Bucket c.Toplimit).toNat + 1)) (true, 1)) := by
  constructor
  · intro hlim hT
    exact IsTrafficCtrlRepeat_from_zero service productid acckey n tc c hreg hzero hn _
      (verdict_unthrottled c hlim hT)
  · intro hlim hT
    exact IsTrafficCtrlRepeat_from_zero service productid acckey n tc c hreg hzero hn _
      (verdict_throttled c hlim hT)

/-- Witness of the amended C17: a throttled caller with bucket 2 and ceiling 15, five calls. -/
theorem IsTrafficCtrlRepeat_threshold_witness :
    (mapGet (⟨[("A_p_k", ⟨10, 2, 15, 40, 0, true⟩)], 1000⟩ : TrafficController).TrafficCtrl
        (GenerateKey "a" "p" "k") = some ⟨10, 2, 15, 40, 0, true⟩ ∧
      ((5 : Nat) : Int) ≤ MaxInt64 + 1 ∧ (0 : Int) ≤ min 2 15) ∧
    (IsTrafficCtrlRepeat 5 ⟨[("A_p_k", ⟨10, 2, 15, 40, 0, true⟩)], 1000⟩ "a" "p" "k").1 =
      List.replicate (min 5 ((min (2 : Int) 15).toNat + 1)) (false, 0) ++
        List.replicate (5 - min 5 ((min (2 : Int) 15).toNat + 1)) (true, 1) :=
  ⟨by decide,
   (IsTrafficCtrlRepeat_threshold ⟨[("A_p_k", ⟨10, 2, 15, 40, 0, true⟩)], 1000⟩ "a" "p" "k"
      ⟨10, 2, 15, 40, 0, true⟩ 5 (by decide) rfl (by decide)).2 rfl (by decide)⟩

/-- C20 as stated fails for more than `2^63` calls between two ticks: a caller registered with
`appliedqps = 0` has `Toplimit = 0`, and the call number `2^63 + 1` after registration reads
the wrapped tally `MinInt64` and returns `(false, 0)` like the first one. -/
theorem IsTrafficCtrlRepeat_zero_quota_wraps :
    mapGet (RegisterCaller ⟨[], 1000⟩ "a" "p" "k" 0 5).1.TrafficCtrl (GenerateKey "a" "p" "k") =
      some ⟨0, 5, 0, 0, 0, false⟩ ∧
    (IsTrafficCtrlRepeat 9223372036854775809 (RegisterCaller ⟨[], 1000⟩ "a" "p" "k" 0 5).1
        "a" "p" "k").1[9223372036854775808]? = some (false, 0) := by
  have hget : mapGet (RegisterCaller ⟨[], 1000⟩ "a" "p" "k" 0 5).1.TrafficCtrl
      (GenerateKey "a" "p" "k") = some ⟨0, 5, 0, 0, 0, false⟩ := by decide
  refine ⟨hget, ?_⟩
  rw [IsTrafficCtrlRepeat_verdicts_wrap "a" "p" "k" 9223372036854775809 _ _ hget (by decide),
    List.getElem?_map, List.getElem?_range (by decide)]
  decide

/-- C20, amended: a caller registered with `appliedqps = 0` (any `bucket ≥ 0`, any period) is
stored with `AppliedQps = 0`, `Toplimit = 0` and `Bucket ≥ 0`; while its ceiling is 0 every
admission check that reads a tally `≥ 1` returns `(true, 1)` whatever `TrafficLimit` and
`Bucket` are, and of `n ≤ 2^63` consecutive checks from tally 0 only the first returns
`(false, 0)`. -/
theorem RegisterCaller_zero_quota [RuneTable] (tc : TrafficController) (service productid acckey : String)
    (bucket : Int) (hok : (RegisterCaller tc service productid acckey 0 bucket).2 = none) :
    ∃ c, mapGet (RegisterCaller tc service productid acckey 0 bucket).1.TrafficCtrl
        (GenerateKey service productid acckey) = some c ∧
      c.AppliedQps = 0 ∧ c.Toplimit = 0 ∧ 0 ≤ c.Bucket ∧
      (∀ (tc₂ : TrafficController) (c₂ : TrafficCounter),
        mapGet tc₂.TrafficCtrl (GenerateKey service productid acckey) = some c₂ →
        c₂.Toplimit = 0 → c₂.CurrentCnt ≥ 1 →
        (IsTrafficCtrl tc₂ service productid acckey).1 = (true, 1)) ∧
      (∀ (tc₂ : TrafficController) (c₂ : TrafficCounter) (n : Nat),
        mapGet tc₂.TrafficCtrl (GenerateKey service productid acckey) = some c₂ →
        c₂.Toplimit = 0 → 0 ≤ c₂.Bucket → c₂.CurrentCnt = 0 → (n : Int) ≤ MaxInt64 + 1 →
        (IsTrafficCtrlRepeat n tc₂ service productid acckey).1 =
          List.replicate (min n 1) (false, 0) ++ List.replicate (n - min n 1) (true, 1)) := by
  refine ⟨freshCounter 0 bucket tc.Period, RegisterCaller_get tc _ _ _ _ _ hok,
    (freshCounter_zero_quota bucket tc.Period).1, (freshCounter_zero_quota bucket tc.Period).2,
    (scaled_bounds bucket (bucket * tc.Period)).1, ?_, ?_⟩
  · intro tc₂ c₂ hget hT hcnt
    rw [IsTrafficCtrl_of_get tc₂ _ _ _ c₂ hget]
    have hc : (c₂.TrafficLimit = true ∧ c₂.CurrentCnt > c₂.Bucket) ∨
        c₂.CurrentCnt > c₂.Toplimit := by
      right; omega
    simp only [verdict, hc, if_true]
  · intro tc₂ c₂ n hget hT hB hzero hn
    have hθ : ∀ i : Nat, verdict c₂ (i : Int) = if i < 0 + 1 then (false, 0) else (true, 1) := by
      intro i
      cases hlim : c₂.TrafficLimit with
      | false =>
        have h := verdict_unthrottled c₂ hlim (by omega) i
        rw [hT] at h
        simpa using h
      | true =>
        have hmin : min c₂.Bucket c₂.Toplimit = 0 := by rw [hT]; omega
        have h := verdict_throttled c₂ hlim (by omega) i
        rw [hmin] at h
        simpa using h
    exact IsTrafficCtrlRepeat_from_zero service productid acckey n tc₂ c₂ hget hzero hn 0 hθ

/-- Witness of the amended C20: quota 0 with bucket 5 on an empty registry, period 1000. -/
theorem RegisterCaller_zero_quota_witness :
    (RegisterCaller ⟨[], 1000⟩ "a" "p" "k" 0 5).2 = none ∧
    ∃ c, mapGet (RegisterCaller ⟨[], 1000⟩ "a" "p" "k" 0 5).1.TrafficCtrl
        (GenerateKey "a" "p" "k") = some c ∧ c.AppliedQps = 0 ∧ c.Toplimit = 0 := by
  refine ⟨by decide, ?_⟩
  obtain ⟨c, h1, h2, h3, _⟩ := RegisterCaller_zero_quota ⟨[], 1000⟩ "a" "p" "k" 5 (by decide)
  exact ⟨c, h1, h2, h3⟩

/-! ## The deltas sent to the store -/

theorem rediskey_inj (k k' : String) (day hour : Nat)
    (h : rediskey k day hour = rediskey k' day hour) : k = k' := by
  have hd := congrArg String.data h
  simp only [rediskey, String.data_append, List.append_assoc] at hd
  have h1 := List.append_cancel_left hd
  exact String.ext (List.append_cancel_right h1)

theorem mem_writeCountCalls (day hour : Nat) (rk : String) (δ : Int) :
    ∀ es : List (String × TrafficCounter),
      (rk, δ) ∈ writeCountCalls day hour es ↔
        ∃ k v, (k, v) ∈ es ∧ rk = rediskey k day hour ∧ δ = v.CurrentCnt := by
  intro es
  induction es with
  | nil => simp [writeCountCalls]
  | cons p rest ih =>
    obtain ⟨k0, v0⟩ := p
    simp only [writeCountCalls, List.mem_cons, Prod.mk.injEq, ih]
    constructor
    · rintro (⟨h1, h2⟩ | ⟨k, v, hm, h1, h2⟩)
      · exact ⟨k0, v0, Or.inl ⟨rfl, rfl⟩, h1, h2⟩
      · exact ⟨k, v, Or.inr hm, h1, h2⟩
    · rintro ⟨k, v, (⟨e1, e2⟩ | hm), h1, h2⟩
      · subst e1; subst e2; exact Or.inl ⟨h1, h2⟩
      · exact Or.inr ⟨k, v, hm, h1, h2⟩

theorem writeCountCalls_delta (day hour : Nat) (es : List (String × TrafficCounter))
    (k : String) (c : TrafficCounter) (hnd : KeysNodup es) (hget : mapGet es k = some c) :
    (rediskey k day hour, c.CurrentCnt) ∈ writeCountCalls day hour es ∧
    ∀ δ, (rediskey k day hour, δ) ∈ writeCountCalls day hour es → δ = c.CurrentCnt := by
  constructor
  · exact (mem_writeCountCalls day hour _ _ es).2 ⟨k, c, mem_of_mapGet es k c hget, rfl, rfl⟩
  · intro δ hδ
    obtain ⟨k', v, hm, h1, h2⟩ := (mem_writeCountCalls day hour _ _ es).1 hδ
    have hk : k = k' := rediskey_inj k k' day hour h1
    subst hk
    have hv := mapGet_of_mem es k v hnd hm
    rw [hget] at hv
    cases hv
    exact h2

/-- The loop of `writeCount` consults the store on the calls of `writeCountCalls` only. -/
theorem writeCountLoop_congr_calls (f₁ f₂ : String → Int → Option Int)
    (e₁ e₂ : String → Int → Bool) (day hour : Nat) (expire : Int) :
    ∀ (es : List (String × TrafficCounter)) (respone : List (String × Int)),
      (∀ p ∈ writeCountCalls day hour es, f₁ p.1 p.2 = f₂ p.1 p.2) →
      writeCountLoop ⟨f₁, e₁⟩ day hour expire es respone =
        writeCountLoop ⟨f₂, e₂⟩ day hour expire es respone := by
  intro es
  induction es with
  | nil => intro r _; rfl
  | cons p rest ih =>
    intro r hagree
    obtain ⟨k0, v0⟩ := p
    have h0 : f₁ (rediskey k0 day hour) v0.CurrentCnt = f₂ (rediskey k0 day hour) v0.CurrentCnt :=
      hagree (rediskey k0 day hour, v0.CurrentCnt) (by simp [writeCountCalls])
    have hrest : ∀ p ∈ writeCountCalls day hour rest, f₁ p.1 p.2 = f₂ p.1 p.2 := by
      intro p hp
      exact hagree p (by simp [writeCountCalls, hp])
    unfold writeCountLoop
    simp only [← h0]
    cases hinc : f₁ (rediskey k0 day hour) v0.CurrentCnt with
    | none => simp only [ih _ hrest]
    | some T => simp only [ih _ hrest]

theorem reachingCalls_replicate [RuneTable] (service productid acckey : String) (n : Nat) :
    reachingCalls (GenerateKey service productid acckey)
      (List.replicate n (service, productid, acckey)) = n := by
  induction n with
  | zero => simp [reachingCalls]
  | succ n ih =>
    unfold reachingCalls at *
    rw [List.replicate_succ, List.filter_cons_of_pos (by simp), List.length_cons, ih]

theorem map_ext_of_keys {α : Type} :
    ∀ (m₁ m₂ : List (String × α)), mapKeys m₁ = mapKeys m₂ → KeysNodup m₁ →
      (∀ k, mapGet m₁ k = mapGet m₂ k) → m₁ = m₂ := by
  intro m₁
  induction m₁ with
  | nil =>
    intro m₂ hk _ _
    cases m₂ with
    | nil => rfl
    | cons q r => simp [mapKeys] at hk
  | cons p r₁ ih =>
    intro m₂ hk hnd hget
    obtain ⟨k0, v0⟩ := p
    cases m₂ with
    | nil => simp [mapKeys] at hk
    | cons q r₂ =>
      obtain ⟨k1, v1⟩ := q
      simp only [mapKeys, List.map_cons, List.cons.injEq] at hk
      obtain ⟨hk01, hkr⟩ := hk
      subst hk01
      obtain ⟨hnone, hndr⟩ := KeysNodup_cons k0 v0 r₁ hnd
      have hv : v0 = v1 := by
        have := hget k0
        simpa [mapGet_cons] using this
      subst hv
      have hnone₂ : mapGet r₂ k0 = none :=
        (mapKeys_eq_get_none r₁ r₂ hkr.symm k0).2 hnone
      have hrest : ∀ k, mapGet r₁ k = mapGet r₂ k := by
        intro k
        by_cases hkk : k0 = k
        · subst hkk; rw [hnone, hnone₂]
        · have := hget k
          simpa [mapGet_cons, hkk] using this
      rw [ih r₂ hkr hndr hrest]

theorem IsTrafficCtrlSeq_nodup [RuneTable] (ids : List (String × String × String)) (tc : TrafficController)
    (hnd : KeysNodup tc.TrafficCtrl) : KeysNodup (IsTrafficCtrlSeq ids tc).TrafficCtrl := by
  unfold KeysNodup
  rw [(IsTrafficCtrlSeq_keys ids tc).1]
  exact hnd

theorem IsTrafficCtrlSeq_replicate_single [RuneTable] (service productid acckey : String)
    (P : Int) (n : Nat) :
    ∀ c : TrafficCounter, IsInt64 c.CurrentCnt →
      IsTrafficCtrlSeq (List.replicate n (service, productid, acckey))
          ⟨[(GenerateKey service productid acckey, c)], P⟩ =
        ⟨[(GenerateKey service productid acckey,
            { c with CurrentCnt := wrap64 (c.CurrentCnt + (n : Int)) })], P⟩ := by
  induction n with
  | zero =>
    intro c hc
    simp [IsTrafficCtrlSeq, wrap64_of_IsInt64 _ hc]
  | succ n ih =>
    intro c hc
    have hget : mapGet (⟨[(GenerateKey service productid acckey, c)], P⟩ :
        TrafficController).TrafficCtrl (GenerateKey service productid acckey) = some c := by
      simp [mapGet]
    rw [List.replicate_succ]
    simp only [IsTrafficCtrlSeq]
    rw [IsTrafficCtrl_of_get _ service productid acckey c hget]
    have hset : mapSet [(GenerateKey service productid acckey, c)]
        (GenerateKey service productid acckey)
        { c with CurrentCnt := wrap64 (c.CurrentCnt + 1) } =
        [(GenerateKey service productid acckey,
          { c with CurrentCnt := wrap64 (c.CurrentCnt + 1) })] := by
      simp [mapSet]
    simp only [hset]
    rw [ih _ (wrap64_IsInt64 _)]
    simp only [wrap64_wrap64_add]
    have harith : c.CurrentCnt + 1 + (n : Int) = c.CurrentCnt + ((n + 1 : Nat) : Int) := by
      push_cast
      ring
    rw [harith]

/-- A tick asks the store nothing but `IncrBy` of each caller's store key with that caller's
tally: two stores that answer those calls alike give the same tick. -/
theorem writeCount_congr_store (tc : TrafficController) (R₁ R₂ : Store) (day hour : Nat)
    (hnd : KeysNodup tc.TrafficCtrl)
    (h : ∀ k c, mapGet tc.TrafficCtrl k = some c →
      R₂.IncrBy (rediskey k day hour) c.CurrentCnt =
        R₁.IncrBy (rediskey k day hour) c.CurrentCnt) :
    writeCount tc R₂ day hour = writeCount tc R₁ day hour := by
  obtain ⟨f₁, e₁⟩ := R₁
  obtain ⟨f₂, e₂⟩ := R₂
  have hcalls : ∀ p ∈ writeCountCalls day hour tc.TrafficCtrl, f₂ p.1 p.2 = f₁ p.1 p.2 := by
    intro p hp
    obtain ⟨rk, δ⟩ := p
    obtain ⟨k, v, hm, h1, h2⟩ := (mem_writeCountCalls day hour rk δ tc.TrafficCtrl).1 hp
    have hg := mapGet_of_mem tc.TrafficCtrl k v hnd hm
    have := h k v hg
    simp only at this
    simp only [h1, h2]
    exact this
  unfold writeCount
  rw [writeCountLoop_congr_calls f₂ f₁ e₂ e₁ day hour EXPIRETIME tc.TrafficCtrl [] hcalls]

/-- C15 as stated fails for `2^63` calls between two ticks: after `2^63` admission checks that
reach a caller whose tally was 0 the tally has wrapped, and the next tick hands the store the
delta `MinInt64`, not the number of calls: a store that answers every `IncrBy` with the delta
it is handed leaves `LastTotalCnt = -9223372036854775808`. -/
theorem writeCount_delta_wraps :
    reachingCalls (GenerateKey "a" "p" "k")
        (List.replicate 9223372036854775808 ("a", "p", "k")) = 9223372036854775808 ∧
    writeCount
        (IsTrafficCtrlSeq (List.replicate 9223372036854775808 ("a", "p", "k"))
          ⟨[("A_p_k", ⟨10, 5, 15, 0, 0, false⟩)], 1000⟩)
        ⟨fun _ δ => some δ, fun _ _ => false⟩ 4 11 =
      some ⟨[("A_p_k", ⟨10, 5, 15, -9223372036854775808, 0, false⟩)], 1000⟩ := by
  refine ⟨reachingCalls_replicate "a" "p" "k" 9223372036854775808, ?_⟩
  have hkey : GenerateKey "a" "p" "k" = "A_p_k" := by decide
  have hseq := IsTrafficCtrlSeq_replicate_single "a" "p" "k" 1000 9223372036854775808
    ⟨10, 5, 15, 0, 0, false⟩ (by decide)
  rw [hkey] at hseq
  rw [hseq]
  decide

/-- C15, amended: in a tick the store is asked, for a registered caller, `IncrBy` of its
store key with the caller's `CurrentCnt` at the start of the tick: the caller ends with
`CurrentCnt = 0` and with the store's answer to exactly that call as `LastTotalCnt` (kept as
it was when that call fails), so that a store answering every `IncrBy` with the delta it is
handed leaves `LastTotalCnt` equal to that `CurrentCnt`; and the tick does not depend on the
store's answers to any other call.  That tally is the number of admission checks that reached
the caller since its tally was last 0 (a tick or a registration), as long as there were at
most `2^63 - 1` of them; a caller registered and not checked has tally 0 and sends delta 0. -/
theorem writeCount_delta_is_tally [RuneTable] (tc : TrafficController) (Redis : Store)
    (day hour : Nat) (k : String) (c : TrafficCounter)
    (hnd : KeysNodup tc.TrafficCtrl) (hreg : mapGet tc.TrafficCtrl k = some c) :
    (∃ tc' c', writeCount tc Redis day hour = some tc' ∧ mapGet tc'.TrafficCtrl k = some c' ∧
      c'.CurrentCnt = 0 ∧
      (∀ T, Redis.IncrBy (rediskey k day hour) c.CurrentCnt = some T → c'.LastTotalCnt = T) ∧
      (Redis.IncrBy (rediskey k day hour) c.CurrentCnt = none →
        c'.LastTotalCnt = c.LastTotalCnt)) ∧
    (∀ expire : String → Int → Bool,
      ∃ tc' c', writeCount tc ⟨fun _ δ => some δ, expire⟩ day hour = some tc' ∧
        mapGet tc'.TrafficCtrl k = some c' ∧ c'.LastTotalCnt = c.CurrentCnt) ∧
    (∀ Redis₂ : Store,
      (∀ k₂ c₂, mapGet tc.TrafficCtrl k₂ = some c₂ →
        Redis₂.IncrBy (rediskey k₂ day hour) c₂.CurrentCnt =
          Redis.IncrBy (rediskey k₂ day hour) c₂.CurrentCnt) →
      writeCount tc Redis₂ day hour = writeCount tc Redis day hour) ∧
    (∀ (tc₀ : TrafficController) (c₀ : TrafficCounter) (ids : List (String × String × String)),
      mapGet tc₀.TrafficCtrl k = some c₀ → c₀.CurrentCnt = 0 →
      tc = IsTrafficCtrlSeq ids tc₀ → (reachingCalls k ids : Int) ≤ MaxInt64 →
      c.CurrentCnt = (reachingCalls k ids : Int)) ∧
    (∀ (tc₀ : TrafficController) (service productid acckey : String) (appliedqps bucket : Int),
      (RegisterCaller tc₀ service productid acckey appliedqps bucket).2 = none →
      k = GenerateKey service productid acckey →
      tc = (RegisterCaller tc₀ service productid acckey appliedqps bucket).1 →
      c.CurrentCnt = 0) := by
  refine ⟨?_, ?_, ?_, ?_, ?_⟩
  · obtain ⟨tc', hrun, _, _, hget⟩ := writeCount_spec tc Redis day hour hnd
    refine ⟨tc', tickCounter Redis day hour k c, hrun, ?_, ?_, ?_, ?_⟩
    · rw [hget k, hreg]; rfl
    · unfold tickCounter
      split <;> rfl
    · intro T hT
      simp [tickCounter, hT]
    · intro hN
      simp [tickCounter, hN]
  · intro expire
    obtain ⟨tc', hrun, _, _, hget⟩ :=
      writeCount_spec tc ⟨fun _ δ => some δ, expire⟩ day hour hnd
    refine ⟨tc', tickCounter ⟨fun _ δ => some δ, expire⟩ day hour k c, hrun, ?_, ?_⟩
    · rw [hget k, hreg]; rfl
    · simp [tickCounter]
  · intro Redis₂ hagree
    exact writeCount_congr_store tc Redis Redis₂ day hour hnd hagree
  · intro tc₀ c₀ ids hget₀ hzero htc hcount
    have hc₀ : IsInt64 c₀.CurrentCnt := by rw [hzero]; decide
    have hseq := IsTrafficCtrlSeq_get k ids tc₀ c₀ hget₀ hc₀
    rw [← htc, hreg] at hseq
    have hc := Option.some.inj hseq
    rw [hc]
    simp only
    rw [hzero, zero_add]
    apply wrap64_of_IsInt64
    unfold IsInt64 MinInt64
    unfold MaxInt64 at *
    omega
  · intro tc₀ service productid acckey appliedqps bucket hok hk htc
    have hget := RegisterCaller_get tc₀ service productid acckey appliedqps bucket hok
    rw [← htc, ← hk, hreg] at hget
    have hc := Option.some.inj hget
    rw [hc]
    rfl

/-- Witness of C15, amended: a caller with tally 3 and a store that answers every `IncrBy`
with the delta it is handed; after the tick `LastTotalCnt` is 3 and the tally is 0. -/
theorem writeCount_delta_is_tally_witness :
    (KeysNodup (⟨[("A_p_k", ⟨10, 5, 15, 8, 3, false⟩)], 1000⟩ : TrafficController).TrafficCtrl ∧
      mapGet (⟨[("A_p_k", ⟨10, 5, 15, 8, 3, false⟩)], 1000⟩ : TrafficController).TrafficCtrl
        "A_p_k" = some ⟨10, 5, 15, 8, 3, false⟩) ∧
    ∃ tc' c', writeCount ⟨[("A_p_k", ⟨10, 5, 15, 8, 3, false⟩)], 1000⟩
        ⟨fun _ δ => some δ, fun _ _ => false⟩ 4 11 = some tc' ∧
      mapGet tc'.TrafficCtrl "A_p_k" = some c' ∧ c'.LastTotalCnt = 3 ∧ c'.CurrentCnt = 0 := by
  refine ⟨by decide, ?_⟩
  obtain ⟨tc', c', h1, h2, h3, h4, _⟩ :=
    (writeCount_delta_is_tally ⟨[("A_p_k", ⟨10, 5, 15, 8, 3, false⟩)], 1000⟩
      ⟨fun _ δ => some δ, fun _ _ => false⟩ 4 11 "A_p_k" ⟨10, 5, 15, 8, 3, false⟩
      (by decide) (by decide)).1
  exact ⟨tc', c', h1, h2, h4 3 (by decide), h3⟩

/-- C18: in a tick, a registered caller whose `IncrBy` fails ends with `CurrentCnt = 0` and its
other fields as they were; the tick ends in the same controller whatever the failed delta
was, and the delta that any later tick sends for this caller is the (wrapped) number of
admission checks that reached it after this tick: the failed delta is kept nowhere and is
never sent again. -/
theorem writeCount_failed_delta_dropped [RuneTable] (tc : TrafficController) (Redis : Store)
    (day hour : Nat) (k : String) (c : TrafficCounter)
    (hnd : KeysNodup tc.TrafficCtrl) (hreg : mapGet tc.TrafficCtrl k = some c)
    (hfail : Redis.IncrBy (rediskey k day hour) c.CurrentCnt = none) :
    ∃ tc', writeCount tc Redis day hour = some tc' ∧
      mapGet tc'.TrafficCtrl k = some { c with CurrentCnt := 0 } ∧
      (∀ d : Int, Redis.IncrBy (rediskey k day hour) d = none →
        writeCount ⟨mapSet tc.TrafficCtrl k { c with CurrentCnt := d }, tc.Period⟩
          Redis day hour = some tc') ∧
      (∀ (ids : List (String × String × String)) (day' hour' : Nat) (δ : Int),
        (rediskey k day' hour', δ) ∈
          writeCountCalls day' hour' (IsTrafficCtrlSeq ids tc').TrafficCtrl →
        δ = wrap64 (reachingCalls k ids : Int)) := by
  obtain ⟨tc', hrun, hper, hkeys, hget⟩ := writeCount_spec tc Redis day hour hnd
  have htick : tickCounter Redis day hour k c = { c with CurrentCnt := 0 } := by
    simp [tickCounter, hfail]
  have hc' : mapGet tc'.TrafficCtrl k = some { c with CurrentCnt := 0 } := by
    rw [hget k, hreg, ← htick]; rfl
  have hnd' : KeysNodup tc'.TrafficCtrl := by
    unfold KeysNodup; rw [hkeys]; exact hnd
  refine ⟨tc', hrun, hc', ?_, ?_⟩
  · intro d hd
    have hndB : KeysNodup (⟨mapSet tc.TrafficCtrl k { c with CurrentCnt := d }, tc.Period⟩ :
        TrafficController).TrafficCtrl := KeysNodup_mapSet _ _ _ hnd
    obtain ⟨tcB, hrunB, hperB, hkeysB, hgetB⟩ :=
      writeCount_spec ⟨mapSet tc.TrafficCtrl k { c with CurrentCnt := d }, tc.Period⟩
        Redis day hour hndB
    rw [hrunB]
    have hkeq : mapKeys tcB.TrafficCtrl = mapKeys tc'.TrafficCtrl := by
      rw [hkeysB, hkeys]
      exact mapKeys_mapSet_of_get _ _ c _ hreg
    have hndBr : KeysNodup tcB.TrafficCtrl := by
      unfold KeysNodup; rw [hkeq]; exact hnd'
    have hpt : ∀ x, mapGet tcB.TrafficCtrl x = mapGet tc'.TrafficCtrl x := by
      intro x
      rw [hgetB x, hget x]
      by_cases hx : x = k
      · subst hx
        simp only [mapGet_mapSet_self, hreg, Option.map_some']
        rw [htick]
        simp [tickCounter, hd]
      · simp only [mapGet_mapSet_ne _ _ _ _ hx]
    have hlist := map_ext_of_keys tcB.TrafficCtrl tc'.TrafficCtrl hkeq hndBr hpt
    have hP : tcB.Period = tc'.Period := by rw [hperB, hper]
    cases tcB
    cases tc'
    simp only at hlist hP
    rw [hlist, hP]
  · intro ids day' hour' δ hδ
    have hzero : IsInt64 (0 : Int) := by decide
    have hseq := IsTrafficCtrlSeq_get k ids tc' _ hc' hzero
    have hndS := IsTrafficCtrlSeq_nodup ids tc' hnd'
    have h := (writeCountCalls_delta day' hour' _ k _ hndS hseq).2 δ hδ
    rw [h]
    simp only [zero_add]

/-- Witness of C18: the store fails for a caller with tally 7. -/
theorem writeCount_failed_delta_dropped_witness :
    (KeysNodup (⟨[("A_p_k", ⟨10, 5, 15, 8, 7, true⟩)], 1000⟩ : TrafficController).TrafficCtrl ∧
      mapGet (⟨[("A_p_k", ⟨10, 5, 15, 8, 7, true⟩)], 1000⟩ : TrafficController).TrafficCtrl
        "A_p_k" = some ⟨10, 5, 15, 8, 7, true⟩ ∧
      (⟨fun _ _ => none, fun _ _ => false⟩ : Store).IncrBy (rediskey "A_p_k" 4 11) 7 = none) ∧
    ∃ tc', writeCount ⟨[("A_p_k", ⟨10, 5, 15, 8, 7, true⟩)], 1000⟩
        ⟨fun _ _ => none, fun _ _ => false⟩ 4 11 = some tc' ∧
      mapGet tc'.TrafficCtrl "A_p_k" = some ⟨10, 5, 15, 8, 0, true⟩ := by
  refine ⟨by decide, ?_⟩
  obtain ⟨tc', h1, h2, _⟩ :=
    writeCount_failed_delta_dropped ⟨[("A_p_k", ⟨10, 5, 15, 8, 7, true⟩)], 1000⟩
      ⟨fun _ _ => none, fun _ _ => false⟩ 4 11 "A_p_k" ⟨10, 5, 15, 8, 7, true⟩
      (by decide) (by decide) (by decide)
  exact ⟨tc', h1, h2⟩

end TrafficController
